import Mathlib

/-!
# RayTracing: the control core of `main.cpp`

A shallow embedding of `src/main.cpp`: the two image filters (`GaussBlur`,
`MedianFilter`), the refraction law (`Refract`) and the sampling loop of
`main` with its variance gate, checkpoint rule, run statistics and tone
mapping.

Conventions of the embedding.

* The sampling loop, its variance gate and the stub Scene are written over any
  type `α` that has the operations the code uses (`+`, `-`, `*`, `/`, the
  conversion of a count, `<`), with no law assumed of them: every
  deterministic floating point arithmetic is an instance, and so is `ℚ`.
* Theorems that compute with colour values state the arithmetic they are
  about: those over a linearly ordered field `α` read the floating point
  values as exact numbers.  The filters, the statistics and the tone mapping
  are in this exact reading; code that calls `sqrt`, `exp` or `pow` is written
  over `ℝ`.
* `Config::get().width`, `Config::get().height` and the other configuration
  fields are explicit arguments.
* A colour map `vector<vector<vec3>>` is a list of columns: `m[x][y]`, with
  `x` the column.  A read outside the vectors is `none`.
* `samples_count[x][y]` is a counter that starts at `0` and is only ever
  incremented; it is a natural number.
-/

/-! ## Colours and vectors -/

/-- The `glm::vec3` colour triple. -/
structure vec3 (α : Type) where
  r : α
  g : α
  b : α
deriving DecidableEq

/-- The `glm::vec4` direction `(x, y, z, w)`. -/
structure vec4 where
  x : ℝ
  y : ℝ
  z : ℝ
  w : ℝ

namespace vec3

variable {α : Type}

/-- Componentwise `a + b`. -/
def add [Add α] (a b : vec3 α) : vec3 α := ⟨a.r + b.r, a.g + b.g, a.b + b.b⟩

/-- Componentwise `a - b`. -/
def sub [Sub α] (a b : vec3 α) : vec3 α := ⟨a.r - b.r, a.g - b.g, a.b - b.b⟩

/-- Componentwise `a * b`. -/
def mul [Mul α] (a b : vec3 α) : vec3 α := ⟨a.r * b.r, a.g * b.g, a.b * b.b⟩

/-- Product `v * s` with a scalar. -/
def scale [Mul α] (v : vec3 α) (s : α) : vec3 α := ⟨v.r * s, v.g * s, v.b * s⟩

/-- Quotient `v / s` by a scalar. -/
def divScalar [Div α] (v : vec3 α) (s : α) : vec3 α := ⟨v.r / s, v.g / s, v.b / s⟩

/-- Apply `f` to every channel. -/
def map {β : Type} (f : α → β) (v : vec3 α) : vec3 β := ⟨f v.r, f v.g, f v.b⟩

end vec3

/-- The template `sqr(t) = t * t`, at `vec3`. -/
def sqr {α : Type} [Mul α] (t : vec3 α) : vec3 α := vec3.mul t t

/-! ## Reading a colour map -/

/-- Every element of a list of optional values, or `none` when one is
missing. -/
def optAll {β : Type} : List (Option β) → Option (List β)
  | [] => some []
  | none :: _ => none
  | some a :: os => (optAll os).map (fun as => a :: as)

/-- The read `color_map[i][j]` with (signed) `int` indices. -/
def readPixel {α : Type} (m : List (List (vec3 α))) (i j : Int) : Option (vec3 α) :=
  if 0 ≤ i ∧ 0 ≤ j then (m[i.toNat]?).bind (fun col => col[j.toNat]?) else none

/-- The values of `for (k = -n; k < n + 1; ++k)`, equally of
`for (k = c - n; k <= c + n; ++k)` as offsets from `c`; no value when
`2 * n + 1 ≤ 0`. -/
def loopOffsets (n : Int) : List Int :=
  (List.range (2 * n + 1).toNat).map (fun (k : Nat) => (k : Int) - n)

/-- A colour map with `width` columns of `height` entries each. -/
def isGrid {β : Type} (m : List (List β)) (width height : Nat) : Prop :=
  m.length = width ∧ ∀ col ∈ m, col.length = height

instance {β : Type} (m : List (List β)) (width height : Nat) :
    Decidable (isGrid m width height) := by
  unfold isGrid
  exact inferInstance

/-! ## MedianFilter -/

/-- The index `std::max(std::min(v, n - 1), 0)` of `MedianFilter`. -/
def medianClamp (v : Int) (n : Nat) : Int := max (min v ((n : Int) - 1)) 0

/-- The pixels pushed on the three windows of output pixel `(x, y)`, in the
order of the two window loops (`window_x` outside, `window_y` inside). -/
def medianWindow {α : Type} (m : List (List (vec3 α))) (width height window_size x y : Nat) :
    Option (List (vec3 α)) :=
  optAll ((loopOffsets window_size).flatMap (fun window_x =>
    (loopOffsets window_size).map (fun window_y =>
      readPixel m (medianClamp (window_x + x) width) (medianClamp (window_y + y) height))))

/-- The element `sort(window)[window_size * window_size / 2]` for one channel. -/
def medianSelect {α : Type} [LinearOrder α] (window : List α) (window_size : Nat) : Option α :=
  (window.insertionSort (· ≤ ·))[window_size * window_size / 2]?

/-- The value stored in `ans[x][y]`. -/
def medianPixel {α : Type} [LinearOrder α] (m : List (List (vec3 α)))
    (width height window_size x y : Nat) : Option (vec3 α) :=
  match medianWindow m width height window_size x y with
  | none => none
  | some win =>
    match medianSelect (win.map vec3.r) window_size,
          medianSelect (win.map vec3.g) window_size,
          medianSelect (win.map vec3.b) window_size with
    | some r, some g, some b => some ⟨r, g, b⟩
    | _, _, _ => none

/-- `MedianFilter(color_map, window_size)`: the `width × height` map `ans`. -/
def MedianFilter {α : Type} [LinearOrder α] (color_map : List (List (vec3 α)))
    (width height window_size : Nat) : Option (List (List (vec3 α))) :=
  optAll ((List.range width).map (fun x =>
    optAll ((List.range height).map (fun y =>
      medianPixel color_map width height window_size x y))))

/-! ## GaussBlur -/

/-- The index `std::min(n - 1, std::max(0, v))` of `GaussBlur`. -/
def gaussClamp (v : Int) (n : Nat) : Int := min ((n : Int) - 1) (max 0 v)

/-- The kernel half-extent `rs = ceil(r * 2.57)`. -/
noncomputable def gaussExtent (r : ℝ) : Int := ⌈r * (257 / 100 : ℝ)⌉

/-- The weight `exp(-dsq / (2 * r * r)) / (pi * 2 * r * r)`. -/
noncomputable def gaussWeight (r : ℝ) (dsq : Int) : ℝ :=
  Real.exp (-(dsq : ℝ) / (2 * r * r)) / (Real.pi * 2 * r * r)

/-- The `round` of glm on one float: to the nearest integer, halves away from
zero. -/
noncomputable def roundAway (v : ℝ) : ℝ :=
  if 0 ≤ v then ((⌊v + 1 / 2⌋ : Int) : ℝ) else ((⌈v - 1 / 2⌉ : Int) : ℝ)

/-- The colour read and its weight, for every step of the two kernel loops of
output pixel `ans[j][i]` (`iy` outside, `ix` inside). -/
noncomputable def gaussSamples (m : List (List (vec3 ℝ))) (width height : Nat) (r : ℝ)
    (i j : Nat) : Option (List (vec3 ℝ × ℝ)) :=
  optAll ((loopOffsets (gaussExtent r)).flatMap (fun dy =>
    (loopOffsets (gaussExtent r)).map (fun dx =>
      let ix : Int := (j : Int) + dx
      let iy : Int := (i : Int) + dy
      let dsq : Int := (ix - j) * (ix - j) + (iy - i) * (iy - i)
      (readPixel m (gaussClamp ix width) (gaussClamp iy height)).map
        (fun c => (c, gaussWeight r dsq)))))

/-- The accumulation `val += color * wght; wsum += wght`. -/
def gaussAccumulate (s : List (vec3 ℝ × ℝ)) : vec3 ℝ × ℝ :=
  s.foldl (fun a cw => (vec3.add a.1 (vec3.scale cw.1 cw.2), a.2 + cw.2)) (⟨0, 0, 0⟩, 0)

/-- The value stored in `ans[j][i]`: `round(val / wsum)`. -/
noncomputable def gaussPixel (m : List (List (vec3 ℝ))) (width height : Nat) (r : ℝ)
    (i j : Nat) : Option (vec3 ℝ) :=
  (gaussSamples m width height r i j).map (fun s =>
    vec3.map roundAway (vec3.divScalar (gaussAccumulate s).1 (gaussAccumulate s).2))

/-- `GaussBlur(color_map, r)`: the `width × height` map `ans`. -/
noncomputable def GaussBlur (color_map : List (List (vec3 ℝ))) (width height : Nat) (r : ℝ) :
    Option (List (List (vec3 ℝ))) :=
  optAll ((List.range width).map (fun j =>
    optAll ((List.range height).map (fun i => gaussPixel color_map width height r i j))))

/-! ## Refract -/

namespace vec4

/-- The `dot` of glm. -/
def dot (a b : vec4) : ℝ := a.x * b.x + a.y * b.y + a.z * b.z + a.w * b.w

/-- Product `v * s` with a scalar. -/
def scale (v : vec4) (s : ℝ) : vec4 := ⟨v.x * s, v.y * s, v.z * s, v.w * s⟩

/-- Componentwise `a + b`. -/
def add (a b : vec4) : vec4 := ⟨a.x + b.x, a.y + b.y, a.z + b.z, a.w + b.w⟩

/-- Componentwise `a - b`. -/
def sub (a b : vec4) : vec4 := ⟨a.x - b.x, a.y - b.y, a.z - b.z, a.w - b.w⟩

end vec4

/-- The `reflect(I, N) = I - N * dot(N, I) * 2` of glm. -/
def reflect (I N : vec4) : vec4 := vec4.sub I (vec4.scale (vec4.scale N (vec4.dot N I)) 2)

/-- `Refract(incidence_direction, normal, refractive)`. -/
noncomputable def Refract (incidence_direction normal : vec4) (refractive : ℝ) : vec4 :=
  let cos_incidence := -vec4.dot normal incidence_direction
  let sin_refraction := refractive * Real.sqrt (1 - cos_incidence * cos_incidence)
  if sin_refraction > 1 then
    reflect incidence_direction normal
  else
    let cos_refraction := Real.sqrt (1 - sin_refraction * sin_refraction)
    vec4.add (vec4.scale incidence_direction refractive)
      (vec4.scale normal (refractive * cos_incidence - cos_refraction))

/-! ## The accumulators and the variance gate of `main` -/

/-- The accumulators of one pixel: `color_map[x][y]` (sum of the samples),
`color2_map[x][y]` (sum of their squares) and `samples_count[x][y]`. -/
structure Pixel (α : Type) where
  color : vec3 α
  color2 : vec3 α
  samples : Nat

/-- The vector `D = color2_map[x][y] / sample_count - sqr(color_map[x][y] / sample_count)`
with `sample_count = static_cast<float>(samples_count[x][y])`. -/
def variance {α : Type} [Sub α] [Mul α] [Div α] [NatCast α] (p : Pixel α) : vec3 α :=
  vec3.sub (vec3.divScalar p.color2 (p.samples : α)) (sqr (vec3.divScalar p.color (p.samples : α)))

/-- The test that ends in `continue` in the generate phase: `true` when no ray
is created for the pixel in pass `rays_count`. -/
def gateSkips {α : Type} [Sub α] [Mul α] [Div α] [Zero α] [NatCast α] [LT α]
    [DecidableRel (fun a b : α => a < b)]
    (rays_count : Nat) (error : α) (p : Pixel α) : Bool :=
  if rays_count > 10 ∧ (p.samples : α) > 0 then
    if rays_count % 4 ≠ 0 ∧ (variance p).r < error ∧
        (variance p).g < error ∧ (variance p).b < error then
      true
    else
      false
  else
    false

/-! ## The sampling loop of `main` -/

/-- What the loop uses of the classes `Ray` and `Scene`, whose code is not in
`main.cpp`: the ray built in pass `rays_count` for pixel `(x, y)`,
`ray.IsValid()`, and one call `scene.TraceRay(ray)`, which updates the ray and
the accumulators of the ray's pixel. -/
structure Scene (α Ray : Type) where
  newRay : Nat → Nat → Nat → Ray
  IsValid : Ray → Bool
  TraceRay : Ray → Pixel α → Ray × Pixel α

/-- One pixel during the loop: its accumulators, its slot `rays[y * width + x]`
and, as a history variable, the passes in which a ray was created for it. -/
structure PixelState (α Ray : Type) where
  acc : Pixel α
  ray : Ray
  created : List Nat

/-- The state `st` with the entry of pixel `(x, y)` replaced by `v`. -/
def setAt {β : Type} (st : Nat → Nat → β) (x y : Nat) (v : β) : Nat → Nat → β :=
  fun i j => if i = x ∧ j = y then v else st i j

/-- The loop nest `for (y = 0; y < height; ++y) for (x = 0; x < width; ++x)`. -/
def forPixels {S : Type} (width height : Nat) (body : Nat → Nat → S → Option S) (s : S) :
    Option S :=
  (List.range height).foldlM
    (fun s y => (List.range width).foldlM (fun s x => body x y s) s) s

/-- The body of the generate phase for one pixel. -/
def generatePixel {α Ray : Type} [Sub α] [Mul α] [Div α] [Zero α] [NatCast α] [LT α]
    [DecidableRel (fun a b : α => a < b)] (scene : Scene α Ray)
    (rays_count : Nat) (error : α) (x y : Nat) (s : PixelState α Ray) : PixelState α Ray :=
  if gateSkips rays_count error s.acc then s
  else { s with ray := scene.newRay rays_count x y, created := s.created ++ [rays_count] }

/-- The loop `while (ray.IsValid()) scene.TraceRay(ray)`, stopped with `none`
after `fuel` calls. -/
def traceLoop {α Ray : Type} (scene : Scene α Ray) :
    Nat → Ray → Pixel α → Option (Ray × Pixel α)
  | 0, ray, p => if scene.IsValid ray then none else some (ray, p)
  | fuel + 1, ray, p =>
    if scene.IsValid ray then
      traceLoop scene fuel (scene.TraceRay ray p).1 (scene.TraceRay ray p).2
    else some (ray, p)

/-- The body of the trace phase for one pixel. -/
def tracePixel {α Ray : Type} (scene : Scene α Ray) (fuel : Nat) (s : PixelState α Ray) :
    Option (PixelState α Ray) :=
  (traceLoop scene fuel s.ray s.acc).map (fun rp => { s with ray := rp.1, acc := rp.2 })

/-- The test `Config::get().update != 0 && rays_count % Config::get().update == 0`. -/
def checkpointDue (update rays_count : Nat) : Bool :=
  decide (update ≠ 0 ∧ rays_count % update = 0)

/-- The state of the loop: the counter `rays_count`, the pixels, and, as a
history variable, the passes after which the preview image was saved. -/
structure LoopState (α Ray : Type) where
  rays_count : Nat
  pixels : Nat → Nat → PixelState α Ray
  saves : List Nat

/-- One iteration of the loop after its time check: the generate phase, the
trace phase, the checkpoint and `++rays_count`. -/
def samplingPass {α Ray : Type} [Sub α] [Mul α] [Div α] [Zero α] [NatCast α] [LT α]
    [DecidableRel (fun a b : α => a < b)] (scene : Scene α Ray) (fuel : Nat)
    (width height : Nat) (error : α) (update : Nat) (s : LoopState α Ray) :
    Option (LoopState α Ray) :=
  match forPixels width height
      (fun x y st => some (setAt st x y (generatePixel scene s.rays_count error x y (st x y))))
      s.pixels with
  | none => none
  | some generated =>
    match forPixels width height
        (fun x y st => (tracePixel scene fuel (st x y)).map (setAt st x y)) generated with
    | none => none
    | some traced =>
      some { rays_count := s.rays_count + 1
             pixels := traced
             saves := if checkpointDue update s.rays_count then s.saves ++ [s.rays_count]
                      else s.saves }

/-- The test of the `break`:
`time_limit != 0 && (cur_time - start_time).count() >= 1000 * time_limit`. -/
def timeUp (time_limit : ℚ) (elapsed : Int) : Bool :=
  decide (time_limit ≠ 0 ∧ (elapsed : ℚ) ≥ 1000 * time_limit)

/-- The loop `for (rays_count = 0; rays_count < rays_per_pixel; ++rays_count)`,
by recursion on the number of iterations left; `clock k` is the reading
`(cur_time - start_time).count()` taken at the head of iteration `k`. -/
def samplingLoop {α Ray : Type} [Sub α] [Mul α] [Div α] [Zero α] [NatCast α] [LT α]
    [DecidableRel (fun a b : α => a < b)] (scene : Scene α Ray) (fuel : Nat)
    (width height : Nat) (error : α) (update : Nat) (time_limit : ℚ) (clock : Nat → Int) :
    Nat → LoopState α Ray → Option (LoopState α Ray)
  | 0, s => some s
  | left + 1, s =>
    if timeUp time_limit (clock s.rays_count) then some s
    else
      match samplingPass scene fuel width height error update s with
      | none => none
      | some s' => samplingLoop scene fuel width height error update time_limit clock left s'

/-- The state at the start of `main`: zeroed maps and the default rays. -/
def initialState {α Ray : Type} [Zero α] (ray0 : Ray) : LoopState α Ray :=
  { rays_count := 0
    pixels := fun _ _ => { acc := ⟨⟨0, 0, 0⟩, ⟨0, 0, 0⟩, 0⟩, ray := ray0, created := [] }
    saves := [] }

/-- The whole sampling loop of `main` with sample budget `rays_per_pixel`. -/
def sampling {α Ray : Type} [Sub α] [Mul α] [Div α] [Zero α] [NatCast α] [LT α]
    [DecidableRel (fun a b : α => a < b)] (scene : Scene α Ray) (fuel : Nat)
    (width height : Nat) (error : α) (update : Nat) (time_limit : ℚ) (clock : Nat → Int)
    (rays_per_pixel : Nat) (ray0 : Ray) : Option (LoopState α Ray) :=
  samplingLoop scene fuel width height error update time_limit clock rays_per_pixel
    (initialState ray0)

/-- Modelled from the spec: the stub Scene of the scenarios, which terminates
every ray in one call and accumulates the same fixed colour `c` for it
(`sum += c`, `sumSquares += c * c`, `count += 1`).  A ray is its validity
flag. -/
def stubScene {α : Type} [Add α] [Mul α] (c : vec3 α) : Scene α Bool where
  newRay := fun _ _ _ => true
  IsValid := fun ray => ray
  TraceRay := fun _ p =>
    (false, { color := vec3.add p.color c
              color2 := vec3.add p.color2 (vec3.mul c c)
              samples := p.samples + 1 })

/-! ## Run statistics and tone mapping -/

/-- The three running values `max_dispersion`, `min_dispersion` (`none` is the
initial `INFINITY`) and `average_dispersion`. -/
structure Dispersion (α : Type) where
  max_dispersion : α
  min_dispersion : Option α
  average_dispersion : α

/-- The value `disp = D.r + D.g + D.b` of a pixel. -/
def dispersion {α : Type} [LinearOrderedField α] (p : Pixel α) : α :=
  (variance p).r + (variance p).g + (variance p).b

/-- The body of the statistics loop for one pixel (without the write to
`color_map[x][y]`, which comes after the reads and is `toneMap`). -/
def statStep {α : Type} [LinearOrderedField α] (s : Dispersion α) (p : Pixel α) :
    Dispersion α :=
  if p.samples = 0 then
    { s with average_dispersion := s.average_dispersion + 1 }
  else
    { max_dispersion := if dispersion p > s.max_dispersion then dispersion p
                        else s.max_dispersion
      min_dispersion :=
        match s.min_dispersion with
        | none => some (dispersion p)
        | some m => if dispersion p < m then some (dispersion p) else some m
      average_dispersion := s.average_dispersion + dispersion p }

/-- The statistics loop over a list of pixels, from given running values. -/
def statFold {α : Type} [LinearOrderedField α] (s : Dispersion α) (ps : List (Pixel α)) :
    Dispersion α :=
  ps.foldl statStep s

/-- The pixels in the order the statistics loop visits them: `y` outside, `x`
inside. -/
def scanOrder {β : Type} (width height : Nat) (acc : Nat → Nat → β) : List β :=
  (List.range height).flatMap (fun y => (List.range width).map (fun x => acc x y))

/-- The statistics of `main`: the loop from `(0, INFINITY, 0)` and then
`average_dispersion /= width * height`. -/
def statistics {α : Type} [LinearOrderedField α] (width height : Nat)
    (acc : Nat → Nat → Pixel α) : Dispersion α :=
  let s := statFold ⟨0, none, 0⟩ (scanOrder width height acc)
  { s with average_dispersion := s.average_dispersion / ((width * height : Nat) : α) }

/-- The colour `pow(color_map[x][y] / samples_count[x][y], vec3(gamma)) * 255.0f`. -/
noncomputable def toneMap (gamma : ℝ) (p : Pixel ℝ) : vec3 ℝ :=
  vec3.scale (vec3.map (fun v => v ^ gamma) (vec3.divScalar p.color (p.samples : ℝ))) 255

/-- The arguments `c.r, c.g, c.b` of `image.set_pixel` in a checkpoint preview;
`none` when the pixel is not set. -/
noncomputable def previewPixel (gamma : ℝ) (p : Pixel ℝ) : Option (vec3 ℝ) :=
  if p.samples ≠ 0 then some (toneMap gamma p) else none

/-- The entry `color_map[x][y]` after the statistics loop. -/
noncomputable def finalColor (gamma : ℝ) (p : Pixel ℝ) : vec3 ℝ :=
  if p.samples = 0 then p.color else toneMap gamma p

/-- The arguments `color.r, color.g, color.b` of `image.set_pixel` in the final
write when both filters are disabled; `none` when the pixel is not set. -/
noncomputable def finalPixel (gamma : ℝ) (p : Pixel ℝ) : Option (vec3 ℝ) :=
  if p.samples = 0 then none else some (finalColor gamma p)

/-! ## The sampling loop as seen by one pixel -/

/-- The generate phase and then the trace phase of pass `rays_count` on the
state of pixel `(x, y)`. -/
def passPixel {α Ray : Type} [Sub α] [Mul α] [Div α] [Zero α] [NatCast α] [LT α]
    [DecidableRel (fun a b : α => a < b)] (scene : Scene α Ray) (fuel : Nat)
    (error : α) (x y : Nat) (rays_count : Nat) (s : PixelState α Ray) :
    Option (PixelState α Ray) :=
  tracePixel scene fuel (generatePixel scene rays_count error x y s)

/-- The passes `rays_count, rays_count + 1, …` (`left` of them) on the state of
pixel `(x, y)`, when no time check stops the loop. -/
def pixelLoop {α Ray : Type} [Sub α] [Mul α] [Div α] [Zero α] [NatCast α] [LT α]
    [DecidableRel (fun a b : α => a < b)] (scene : Scene α Ray) (fuel : Nat)
    (error : α) (x y : Nat) : Nat → Nat → PixelState α Ray → Option (PixelState α Ray)
  | 0, _, s => some s
  | left + 1, rays_count, s =>
    match passPixel scene fuel error x y rays_count s with
    | none => none
    | some s' => pixelLoop scene fuel error x y left (rays_count + 1) s'

/-- The accumulators after `n` samples of the same colour `c`. -/
def constantAcc {α : Type} [LinearOrderedField α] (c : vec3 α) (n : Nat) : Pixel α :=
  { color := ⟨(n : α) * c.r, (n : α) * c.g, (n : α) * c.b⟩
    color2 := ⟨(n : α) * (c.r * c.r), (n : α) * (c.g * c.g), (n : α) * (c.b * c.b)⟩
    samples := n }

/-- The sample count and the list of sampled passes of a pixel whose variance
is always below the threshold, over the passes `rays_count, rays_count + 1, …`
(`left` of them): a pass is skipped when `rays_count > 10`, the pixel has a
sample and `rays_count % 4 ≠ 0`. -/
def gateSchedule : Nat → Nat → Nat × List Nat → Nat × List Nat
  | 0, _, p => p
  | left + 1, rays_count, (n, created) =>
    gateSchedule left (rays_count + 1)
      (if 10 < rays_count ∧ 0 < n ∧ rays_count % 4 ≠ 0 then (n, created)
       else (n + 1, created ++ [rays_count]))

/-! ## Concrete inputs -/

/-- A `2 × 2` map whose pixel `(1, 1)` is the darkest. -/
def c1Grid : List (List (vec3 Int)) := [[⟨5, 5, 5⟩, ⟨5, 5, 5⟩], [⟨5, 5, 5⟩, ⟨0, 0, 0⟩]]

/-- A `3 × 3` map of colour `(5,5,5)` with a dark centre pixel. -/
def c4Grid : List (List (vec3 Int)) :=
  [[⟨5, 5, 5⟩, ⟨5, 5, 5⟩, ⟨5, 5, 5⟩], [⟨5, 5, 5⟩, ⟨0, 0, 0⟩, ⟨5, 5, 5⟩],
   [⟨5, 5, 5⟩, ⟨5, 5, 5⟩, ⟨5, 5, 5⟩]]

/-- A `2 × 1` map of colour `(5,5,5)` with a bright pixel at `(1, 0)`. -/
def c4Bright : List (List (vec3 Int)) := [[⟨5, 5, 5⟩], [⟨9, 9, 9⟩]]

/-- A pixel with one sample of colour `(1,1,1)`, its ray terminated. -/
def c2Pixel : PixelState ℚ Bool :=
  { acc := ⟨⟨1, 1, 1⟩, ⟨1, 1, 1⟩, 1⟩, ray := false, created := [0] }

/-- A pixel with eleven samples of colour `(1,1,1)`, its ray terminated. -/
def c9Pixel : PixelState ℚ Bool :=
  { acc := ⟨⟨11, 11, 11⟩, ⟨11, 11, 11⟩, 11⟩, ray := false
    created := [0, 1, 2, 3, 4, 5, 6, 7, 8, 9, 10] }

/-- The direction `(0, 0, 1, 0)`. -/
def c5Incidence : vec4 := ⟨0, 0, 1, 0⟩

/-- The normal `(0, 0, -1, 0)`, facing `c5Incidence`. -/
def c5Normal : vec4 := ⟨0, 0, -1, 0⟩

/-- The normal `(1, 0, 0, 0)`, at a right angle to `c5Incidence`. -/
def c6Normal : vec4 := ⟨1, 0, 0, 0⟩

/-- The displayable channel as the specification words it:
`clamp(pow(v, gamma) * 255, 0, 255)` rounded to the nearest integer, for the
normalized channel `v = sum / count`. -/
noncomputable def specToneChannel (gamma v : ℝ) : ℝ :=
  roundAway (max 0 (min (v ^ gamma * 255) 255))

/-- A pixel with one sample of colour `(1/2, 2, 1)`. -/
noncomputable def c7Pixel : Pixel ℝ := ⟨⟨1 / 2, 2, 1⟩, ⟨1 / 4, 4, 1⟩, 1⟩

/-- The map `c1Grid` with other green and blue channels. -/
def c16Grid : List (List (vec3 Int)) := [[⟨5, 1, 9⟩, ⟨5, 2, 8⟩], [⟨5, 3, 7⟩, ⟨0, 4, 6⟩]]

/-- Three samples of different colours. -/
def c11Samples : List (vec3 ℚ) := [⟨1, 0, 1 / 2⟩, ⟨0, 0, 1 / 2⟩, ⟨1 / 2, 1, 1 / 2⟩]

/-- The accumulators of a pixel after the three samples `c11Samples`. -/
def c11Pixel : Pixel ℚ := ⟨⟨3 / 2, 1, 3 / 2⟩, ⟨5 / 4, 1, 3 / 4⟩, 3⟩

/-- A `2 × 1` map with a black and a white pixel. -/
noncomputable def c15Grid : List (List (vec3 ℝ)) :=
  [[⟨((0 : Int) : ℝ), ((0 : Int) : ℝ), ((0 : Int) : ℝ)⟩],
   [⟨((255 : Int) : ℝ), ((255 : Int) : ℝ), ((255 : Int) : ℝ)⟩]]

/-! ## The control of the sampling loop -/

/-- The Scene ends every ray within `fuel` calls of `TraceRay`, as its
interface promises. -/
def terminates {α Ray : Type} (scene : Scene α Ray) (fuel : Nat) : Prop :=
  ∀ (ray : Ray) (p : Pixel α), ∃ res, traceLoop scene fuel ray p = some res

/-- One iteration of the loop as a step on the pass counter: from `k` to
`k + 1` when `k < rays_per_pixel` and the time check at the head of iteration
`k`, with clock reading `clock k`, does not break. -/
def loopStep (rays_per_pixel : Nat) (time_limit : ℚ) (clock : Nat → Int) (k k' : Nat) : Prop :=
  k < rays_per_pixel ∧ timeUp time_limit (clock k) = false ∧ k' = k + 1

/-! ## The guarded divisions of `main` -/

/-- The remainder `a % b` of two `int`s, undefined (`none`) for `b = 0`. -/
def checkedMod (a b : Nat) : Option Nat :=
  if b = 0 then none else some (a % b)

/-- The quotient `v / static_cast<float>(count)` of a map entry by a sample
count, counted as an error (`none`) for `count = 0`. -/
def checkedDiv {α : Type} [LinearOrderedField α] (v : vec3 α) (count : Nat) :
    Option (vec3 α) :=
  if count = 0 then none else some (vec3.divScalar v (count : α))

/-- The checkpoint test with its remainder checked; `&&` evaluates its right
operand only when the left one holds. -/
def checkpointChecked (update rays_count : Nat) : Option Bool :=
  if update ≠ 0 then (checkedMod rays_count update).map (fun rem => decide (rem = 0))
  else some false

/-- The gate of the generate phase with its two divisions checked. -/
def gateChecked {α : Type} [LinearOrderedField α] (rays_count : Nat) (error : α)
    (p : Pixel α) : Option Bool :=
  if rays_count > 10 ∧ (p.samples : α) > 0 then
    (checkedDiv p.color2 p.samples).bind (fun q2 =>
      (checkedDiv p.color p.samples).map (fun q =>
        decide (rays_count % 4 ≠ 0 ∧ (vec3.sub q2 (sqr q)).r < error ∧
          (vec3.sub q2 (sqr q)).g < error ∧ (vec3.sub q2 (sqr q)).b < error)))
  else
    some false

/-- The pixel of a checkpoint preview with its division checked. -/
noncomputable def previewChecked (gamma : ℝ) (p : Pixel ℝ) : Option (Option (vec3 ℝ)) :=
  if p.samples ≠ 0 then
    (checkedDiv p.color p.samples).map (fun q =>
      some (vec3.scale (vec3.map (fun v => v ^ gamma) q) 255))
  else
    some none

/-- The body of the statistics loop for one pixel with its two divisions
checked. -/
def statStepChecked {α : Type} [LinearOrderedField α] (s : Dispersion α) (p : Pixel α) :
    Option (Dispersion α) :=
  if p.samples = 0 then
    some { s with average_dispersion := s.average_dispersion + 1 }
  else
    (checkedDiv p.color2 p.samples).bind (fun q2 =>
      (checkedDiv p.color p.samples).map (fun q =>
        { max_dispersion :=
            if (vec3.sub q2 (sqr q)).r + (vec3.sub q2 (sqr q)).g + (vec3.sub q2 (sqr q)).b >
                s.max_dispersion
            then (vec3.sub q2 (sqr q)).r + (vec3.sub q2 (sqr q)).g + (vec3.sub q2 (sqr q)).b
            else s.max_dispersion
          min_dispersion :=
            match s.min_dispersion with
            | none =>
              some ((vec3.sub q2 (sqr q)).r + (vec3.sub q2 (sqr q)).g + (vec3.sub q2 (sqr q)).b)
            | some m =>
              if (vec3.sub q2 (sqr q)).r + (vec3.sub q2 (sqr q)).g + (vec3.sub q2 (sqr q)).b < m
              then some ((vec3.sub q2 (sqr q)).r + (vec3.sub q2 (sqr q)).g +
                (vec3.sub q2 (sqr q)).b)
              else some m
          average_dispersion := s.average_dispersion +
            ((vec3.sub q2 (sqr q)).r + (vec3.sub q2 (sqr q)).g + (vec3.sub q2 (sqr q)).b) }))

/-- The entry `color_map[x][y]` after the statistics loop with the division of
the tone mapping checked. -/
noncomputable def finalColorChecked (gamma : ℝ) (p : Pixel ℝ) : Option (vec3 ℝ) :=
  if p.samples = 0 then some p.color
  else (checkedDiv p.color p.samples).map (fun q =>
    vec3.scale (vec3.map (fun v => v ^ gamma) q) 255)

/-! ## The stub scenario in any arithmetic -/

/-- The part of the gate's test that depends on the arithmetic:
`sample_count > 0 && D.r < error && D.g < error && D.b < error` for the
accumulators `p`. -/
def gateHolds {α : Type} [Sub α] [Mul α] [Div α] [Zero α] [NatCast α] [LT α]
    [DecidableRel (fun a b : α => a < b)] (error : α) (p : Pixel α) : Bool :=
  decide ((p.samples : α) > 0 ∧ (variance p).r < error ∧
    (variance p).g < error ∧ (variance p).b < error)

/-- The accumulators after `n` rays of the stub Scene of colour `c`, from the
zeroed maps, computed with the operations of `α`. -/
def stubAcc {α : Type} [Add α] [Mul α] [Zero α] (c : vec3 α) : Nat → Pixel α
  | 0 => ⟨⟨0, 0, 0⟩, ⟨0, 0, 0⟩, 0⟩
  | n + 1 => ((stubScene c).TraceRay true (stubAcc c n)).2

/-- The sample count and the list of sampled passes of a pixel over the passes
`rays_count, rays_count + 1, …` (`left` of them), when `holds n` tells whether
the gate's test holds on the accumulators of `n` samples: a pass is skipped
when `rays_count > 10`, `rays_count % 4 ≠ 0` and the test holds. -/
def gateScheduleWith (holds : Nat → Bool) : Nat → Nat → Nat × List Nat → Nat × List Nat
  | 0, _, p => p
  | left + 1, rays_count, (n, created) =>
    gateScheduleWith holds left (rays_count + 1)
      (if 10 < rays_count ∧ rays_count % 4 ≠ 0 ∧ holds n = true then (n, created)
       else (n + 1, created ++ [rays_count]))

/-! # Theorems -/

/-! ## Maps built pixel by pixel -/

theorem optAll_eq_some_iff {β : Type} (l : List (Option β)) (out : List β) :
    optAll l = some out ↔ l = out.map some := by
  induction l generalizing out with
  | nil =>
    cases out <;> simp [optAll]
  | cons o os ih =>
    cases o with
    | none => cases out <;> simp [optAll]
    | some a =>
      cases out with
      | nil => simp [optAll]
      | cons b t =>
        simp only [optAll, Option.map_eq_some', List.cons.injEq, List.map_cons, Option.some.injEq]
        constructor
        · rintro ⟨as, h1, rfl, rfl⟩
          exact ⟨rfl, (ih _).1 h1⟩
        · rintro ⟨rfl, h2⟩
          exact ⟨t, (ih t).2 h2, rfl, rfl⟩

theorem medianClamp_bounds (v : Int) (n : Nat) (hn : 1 ≤ n) :
    0 ≤ medianClamp v n ∧ medianClamp v n < n := by
  unfold medianClamp
  omega

theorem optAll_exists {β : Type} (l : List (Option β)) (h : ∀ o ∈ l, ∃ a, o = some a) :
    ∃ out, optAll l = some out := by
  induction l with
  | nil => exact ⟨[], rfl⟩
  | cons o os ih =>
    obtain ⟨a, rfl⟩ := h o (List.mem_cons_self _ _)
    obtain ⟨as, has⟩ := ih (fun o ho => h o (List.mem_cons_of_mem _ ho))
    exact ⟨a :: as, by simp [optAll, has]⟩

theorem optAll_length {β : Type} (l : List (Option β)) (out : List β)
    (h : optAll l = some out) : out.length = l.length := by
  rw [(optAll_eq_some_iff l out).1 h, List.length_map]

theorem optAll_getElem {β : Type} (l : List (Option β)) (out : List β)
    (h : optAll l = some out) (i : Nat) (hi : i < out.length) :
    l[i]? = some (some out[i]) := by
  have hl := (optAll_eq_some_iff l out).1 h
  subst hl
  simp [List.getElem?_map, List.getElem?_eq_getElem hi]

theorem readPixel_isGrid {α : Type} (m : List (List (vec3 α))) (width height : Nat)
    (hm : isGrid m width height) (i j : Int) (hi0 : 0 ≤ i) (hi : i < width) (hj0 : 0 ≤ j)
    (hj : j < height) : ∃ c, readPixel m i j = some c := by
  obtain ⟨hlen, hcol⟩ := hm
  have hi' : i.toNat < m.length := by omega
  have hc : (m[i.toNat]).length = height := hcol _ (List.getElem_mem _)
  have hj' : j.toNat < (m[i.toNat]).length := by omega
  refine ⟨(m[i.toNat])[j.toNat], ?_⟩
  simp [readPixel, hi0, hj0, List.getElem?_eq_getElem hi', List.getElem?_eq_getElem hj']

/-- The shape and the entries of a map built pixel by pixel. -/
theorem pixelwise_spec {β : Type} (width height : Nat) (f : Nat → Nat → Option β)
    (h : ∀ x, x < width → ∀ y, y < height → ∃ c, f x y = some c) :
    ∃ out, optAll ((List.range width).map (fun x =>
        optAll ((List.range height).map (fun y => f x y)))) = some out ∧
      isGrid out width height ∧
      ∀ x, x < width → ∀ y, y < height → (out[x]?).bind (fun col => col[y]?) = f x y := by
  have hcol : ∀ x, x < width → ∃ col, optAll ((List.range height).map (fun y => f x y)) = some col :=
    fun x hx => optAll_exists _ (by
      intro o ho
      obtain ⟨y, hy, rfl⟩ := List.mem_map.1 ho
      exact h x hx y (List.mem_range.1 hy))
  obtain ⟨out, hout⟩ := optAll_exists ((List.range width).map (fun x =>
      optAll ((List.range height).map (fun y => f x y)))) (by
    intro o ho
    obtain ⟨x, hx, rfl⟩ := List.mem_map.1 ho
    exact hcol x (List.mem_range.1 hx))
  have hlen : out.length = width := by
    rw [optAll_length _ _ hout]; simp
  have hx : ∀ x (hx : x < out.length),
      optAll ((List.range height).map (fun y => f x y)) = some out[x] := by
    intro x hx
    have := optAll_getElem _ _ hout x hx
    simpa [List.getElem?_map, List.getElem?_range (hlen ▸ hx)] using this
  refine ⟨out, hout, ⟨hlen, ?_⟩, ?_⟩
  · intro col hc
    obtain ⟨x, hxl, rfl⟩ := List.getElem_of_mem hc
    simpa using optAll_length _ _ (hx x hxl)
  · intro x hxw y hy
    have hxl : x < out.length := by omega
    have h1 := hx x hxl
    have hyl : y < (out[x]).length := by
      rw [optAll_length _ _ h1]; simpa using hy
    have := optAll_getElem _ _ h1 y hyl
    rw [List.getElem?_eq_getElem hxl]
    simp only [Option.some_bind]
    simp only [List.getElem?_map, List.getElem?_range hy, Option.map_some'] at this
    rw [List.getElem?_eq_getElem hyl]
    exact (Option.some.inj this).symm

/-! ## MedianFilter: the selected element -/

theorem loopOffsets_length (w : Nat) : (loopOffsets (w : Int)).length = 2 * w + 1 := by
  unfold loopOffsets
  rw [List.length_map, List.length_range]
  omega

theorem length_flatMap_const {β γ : Type} (l : List β) (f : β → List γ) (n : Nat)
    (h : ∀ a ∈ l, (f a).length = n) : (l.flatMap f).length = l.length * n := by
  induction l with
  | nil => simp
  | cons a t ih =>
    rw [List.flatMap_cons, List.length_append, h a (List.mem_cons_self _ _),
      ih (fun b hb => h b (List.mem_cons_of_mem _ hb)), List.length_cons]
    ring

theorem getElem?_flatMap_const {β γ : Type} (l : List β) (f : β → List γ) (n : Nat)
    (h : ∀ v, (f v).length = n) (a b : Nat) (hb : b < n) :
    (l.flatMap f)[a * n + b]? = (l[a]?).bind (fun v => (f v)[b]?) := by
  induction l generalizing a with
  | nil => simp
  | cons v t ih =>
    rw [List.flatMap_cons]
    cases a with
    | zero =>
      rw [Nat.zero_mul, Nat.zero_add, List.getElem?_append_left (by rw [h v]; exact hb)]
      simp
    | succ a =>
      have hidx : (a + 1) * n + b = (f v).length + (a * n + b) := by rw [h v]; ring
      rw [hidx, List.getElem?_append_right (Nat.le_add_right _ _), Nat.add_sub_cancel_left, ih a]
      simp

theorem loopOffsets_getElem? (w a : Nat) (ha : a ≤ 2 * w) :
    (loopOffsets (w : Int))[a]? = some ((a : Int) - w) := by
  unfold loopOffsets
  have : a < (2 * (w : Int) + 1).toNat := by omega
  simp [List.getElem?_map, List.getElem?_range this]

theorem medianWindow_getElem? {α : Type} (m : List (List (vec3 α)))
    (width height w x y : Nat) (win : List (vec3 α))
    (hwin : medianWindow m width height w x y = some win) (a b : Nat) (ha : a ≤ 2 * w)
    (hb : b ≤ 2 * w) :
    win[a * (2 * w + 1) + b]? =
      readPixel m (medianClamp ((a : Int) - w + x) width)
        (medianClamp ((b : Int) - w + y) height) := by
  suffices hs : (win[a * (2 * w + 1) + b]?).map some =
      some (readPixel m (medianClamp ((a : Int) - w + x) width)
        (medianClamp ((b : Int) - w + y) height)) by
    cases hk : win[a * (2 * w + 1) + b]? with
    | none => rw [hk] at hs; cases hs
    | some c => rw [hk] at hs; exact Option.some.inj hs
  unfold medianWindow at hwin
  have hl := (optAll_eq_some_iff _ _).1 hwin
  have := congrArg (fun l => l[a * (2 * w + 1) + b]?) hl
  simp only [List.getElem?_map] at this
  rw [← this, getElem?_flatMap_const _ _ (2 * w + 1)
    (fun v => by rw [List.length_map, loopOffsets_length]) a b (by omega),
    loopOffsets_getElem? w a ha]
  simp only [Option.some_bind, List.getElem?_map, loopOffsets_getElem? w b hb, Option.map_some']

theorem medianWindow_some {α : Type} (m : List (List (vec3 α))) (width height w x y : Nat)
    (hm : isGrid m width height) (hw : 1 ≤ width) (hh : 1 ≤ height) :
    ∃ win, medianWindow m width height w x y = some win ∧
      win.length = (2 * w + 1) * (2 * w + 1) := by
  obtain ⟨win, hwin⟩ := optAll_exists ((loopOffsets w).flatMap (fun window_x =>
      (loopOffsets w).map (fun window_y =>
        readPixel m (medianClamp (window_x + x) width) (medianClamp (window_y + y) height))))
    (by
      intro o ho
      obtain ⟨wx, -, ho⟩ := List.mem_flatMap.1 ho
      obtain ⟨wy, -, rfl⟩ := List.mem_map.1 ho
      exact readPixel_isGrid m width height hm _ _ (medianClamp_bounds _ _ hw).1
        (medianClamp_bounds _ _ hw).2 (medianClamp_bounds _ _ hh).1
        (medianClamp_bounds _ _ hh).2)
  refine ⟨win, hwin, ?_⟩
  rw [optAll_length _ _ hwin, length_flatMap_const _ _ (2 * w + 1), loopOffsets_length]
  intro a _
  rw [List.length_map, loopOffsets_length]

theorem medianSelect_some {α : Type} [LinearOrder α] (window : List α) (w : Nat)
    (hlen : window.length = (2 * w + 1) * (2 * w + 1)) :
    ∃ v, medianSelect window w = some v ∧
      ∃ s : List α, s.Perm window ∧ s.Sorted (· ≤ ·) ∧ s[w * w / 2]? = some v := by
  have hlt : w * w / 2 < (window.insertionSort (· ≤ ·)).length := by
    rw [List.length_insertionSort, hlen]
    have : w * w / 2 ≤ w * w := Nat.div_le_self _ _
    nlinarith
  refine ⟨(window.insertionSort (· ≤ ·))[w * w / 2], ?_, window.insertionSort (· ≤ ·),
    List.perm_insertionSort _ _, List.sorted_insertionSort _ _, ?_⟩
  · simp [medianSelect, List.getElem?_eq_getElem hlt]
  · exact List.getElem?_eq_getElem hlt

theorem medianPixel_some {α : Type} [LinearOrder α] (m : List (List (vec3 α)))
    (width height w x y : Nat) (hm : isGrid m width height) (hw : 1 ≤ width)
    (hh : 1 ≤ height) :
    ∃ px win, medianPixel m width height w x y = some px ∧
      medianWindow m width height w x y = some win ∧
      medianSelect (win.map vec3.r) w = some px.r ∧
      medianSelect (win.map vec3.g) w = some px.g ∧
      medianSelect (win.map vec3.b) w = some px.b := by
  obtain ⟨win, hwin, hlen⟩ := medianWindow_some m width height w x y hm hw hh
  obtain ⟨r, hr, -⟩ := medianSelect_some (win.map vec3.r) w (by simpa using hlen)
  obtain ⟨g, hg, -⟩ := medianSelect_some (win.map vec3.g) w (by simpa using hlen)
  obtain ⟨b, hb, -⟩ := medianSelect_some (win.map vec3.b) w (by simpa using hlen)
  exact ⟨⟨r, g, b⟩, win, by simp [medianPixel, hwin, hr, hg, hb], hwin, hr, hg, hb⟩

theorem MedianFilter_readPixel {α : Type} [LinearOrder α] (m : List (List (vec3 α)))
    (width height w : Nat) (hm : isGrid m width height) :
    ∃ out, MedianFilter m width height w = some out ∧ isGrid out width height ∧
      ∀ x y : Nat, x < width → y < height →
        readPixel out x y = medianPixel m width height w x y := by
  obtain ⟨out, h1, h2, h3⟩ := pixelwise_spec width height
    (fun x y => medianPixel m width height w x y) (by
      intro x hx y hy
      obtain ⟨px, _, hpx, _⟩ := medianPixel_some m width height w x y hm (by omega) (by omega)
      exact ⟨px, hpx⟩)
  refine ⟨out, h1, h2, ?_⟩
  intro x y hx hy
  simpa [readPixel] using h3 x hx y hy

/-- C1, the claim as stated fails: in the `2 × 2` map `c1Grid` with half-window
`1`, the red channel of output pixel `(0, 0)` is `0`, while the element at
position `w * w = 1` of the sorted window is `5`. -/
theorem MedianFilter_not_index_sq :
    (MedianFilter c1Grid 2 2 1).bind (fun out => readPixel out 0 0) = some ⟨0, 0, 0⟩ ∧
    (medianWindow c1Grid 2 2 1 0 0).bind (fun win =>
      ((win.map vec3.r).insertionSort (· ≤ ·))[1 * 1]?) = some 5 := by
  decide

/-- C1 (amended): for every `width × height` map, every half-window `w` and every
output pixel `(x, y)`, `MedianFilter` returns a map, and each channel of its
pixel `(x, y)` is the element at 0-based position `w * w / 2` (integer
division) of the ascending sort of that channel's `(2w+1)^2` window values;
the window entry of offsets `(a - w, b - w)` is the pixel read at the indices
clamped to `[0, width-1] × [0, height-1]`. -/
theorem MedianFilter_selects {α : Type} [LinearOrder α] (m : List (List (vec3 α)))
    (width height w x y : Nat) (hm : isGrid m width height) (hx : x < width)
    (hy : y < height) :
    ∃ (out : List (List (vec3 α))) (px : vec3 α) (win : List (vec3 α)),
      MedianFilter m width height w = some out ∧ readPixel out x y = some px ∧
      win.length = (2 * w + 1) ^ 2 ∧
      (∀ a b : Nat, a ≤ 2 * w → b ≤ 2 * w →
        win[a * (2 * w + 1) + b]? =
          readPixel m (max (min ((a : Int) - w + x) ((width : Int) - 1)) 0)
            (max (min ((b : Int) - w + y) ((height : Int) - 1)) 0)) ∧
      (∃ s : List α, s.Perm (win.map vec3.r) ∧ s.Sorted (· ≤ ·) ∧ s[w * w / 2]? = some px.r) ∧
      (∃ s : List α, s.Perm (win.map vec3.g) ∧ s.Sorted (· ≤ ·) ∧ s[w * w / 2]? = some px.g) ∧
      (∃ s : List α, s.Perm (win.map vec3.b) ∧ s.Sorted (· ≤ ·) ∧ s[w * w / 2]? = some px.b) := by
  obtain ⟨out, hout, -, hread⟩ := MedianFilter_readPixel m width height w hm
  obtain ⟨px, win, hpx, hwin, hr, hg, hb⟩ :=
    medianPixel_some m width height w x y hm (by omega) (by omega)
  obtain ⟨win', hwin', hlen⟩ := medianWindow_some m width height w x y hm (by omega) (by omega)
  obtain rfl : win' = win := Option.some.inj (hwin'.symm.trans hwin)
  have sel : ∀ (ch : vec3 α → α) (v : α), medianSelect (win'.map ch) w = some v →
      ∃ s : List α, s.Perm (win'.map ch) ∧ s.Sorted (· ≤ ·) ∧ s[w * w / 2]? = some v := by
    intro ch v hv
    obtain ⟨v', hv', s, h1, h2, h3⟩ := medianSelect_some (win'.map ch) w (by simpa using hlen)
    obtain rfl : v' = v := Option.some.inj (hv'.symm.trans hv)
    exact ⟨s, h1, h2, h3⟩
  exact ⟨out, px, win', hout, (hread x y hx hy).trans hpx, by rw [hlen]; ring,
    fun a b ha hb => medianWindow_getElem? m width height w x y win' hwin a b ha hb,
    sel _ _ hr, sel _ _ hg, sel _ _ hb⟩

/-- C1 (amended), at a concrete input: pixel `(0, 0)` of `c1Grid`, half-window `1`. -/
theorem MedianFilter_selects_witness :
    isGrid c1Grid 2 2 ∧ ∃ (out : List (List (vec3 Int))) (px : vec3 Int)
        (win : List (vec3 Int)), MedianFilter c1Grid 2 2 1 = some out ∧
      readPixel out (0 : Nat) (0 : Nat) = some px ∧
      win.length = (2 * 1 + 1) ^ 2 ∧
      (∀ a b : Nat, a ≤ 2 * 1 → b ≤ 2 * 1 →
        win[a * (2 * 1 + 1) + b]? =
          readPixel c1Grid (max (min ((a : Int) - (1 : Nat) + (0 : Nat)) (((2 : Nat) : Int) - 1)) 0)
            (max (min ((b : Int) - (1 : Nat) + (0 : Nat)) (((2 : Nat) : Int) - 1)) 0)) ∧
      (∃ s : List Int, s.Perm (win.map vec3.r) ∧ s.Sorted (· ≤ ·) ∧ s[1 * 1 / 2]? = some px.r) ∧
      (∃ s : List Int, s.Perm (win.map vec3.g) ∧ s.Sorted (· ≤ ·) ∧ s[1 * 1 / 2]? = some px.g) ∧
      (∃ s : List Int, s.Perm (win.map vec3.b) ∧ s.Sorted (· ≤ ·) ∧ s[1 * 1 / 2]? = some px.b) :=
  ⟨by decide, MedianFilter_selects c1Grid 2 2 1 0 0 (by decide) (by decide) (by decide)⟩

/-! ## MedianFilter: a single outlier -/

theorem sorted_getElem_of_count {α : Type} [LinearOrder α] (l : List α) (v : α) (i : Nat)
    (hall : ∀ a ∈ l, v ≤ a) (hcount : i < l.count v) :
    (l.insertionSort (· ≤ ·))[i]? = some v := by
  have hperm : (l.insertionSort (· ≤ ·)).Perm l := List.perm_insertionSort _ _
  have hs : (l.insertionSort (· ≤ ·)).Sorted (· ≤ ·) := List.sorted_insertionSort _ _
  generalize l.insertionSort (· ≤ ·) = s at hperm hs
  have hc : i < s.count v := by rw [hperm.count_eq]; exact hcount
  have hlen : i < s.length := lt_of_lt_of_le hc (List.count_le_length _ _)
  rw [List.getElem?_eq_getElem hlen]
  congr 1
  have hge : v ≤ s[i] := hall _ (hperm.subset (List.getElem_mem _))
  by_contra hne
  have hlt : v < s[i] := lt_of_le_of_ne hge (Ne.symm hne)
  have hdrop : (s.drop i).count v = 0 := by
    apply List.count_eq_zero_of_not_mem
    intro hmem
    rw [List.drop_eq_getElem_cons hlen] at hmem
    have hsd : (s[i] :: s.drop (i + 1)).Sorted (· ≤ ·) := by
      rw [← List.drop_eq_getElem_cons hlen]
      exact List.Pairwise.drop hs
    rcases List.mem_cons.1 hmem with h | h
    · exact absurd h (ne_of_lt hlt)
    · exact absurd (List.rel_of_sorted_cons hsd v h) (not_le.2 hlt)
  have htake : (s.take i).count v ≤ i :=
    le_trans (List.count_le_length _ _) (by rw [List.length_take]; exact Nat.min_le_left _ _)
  have : s.count v = (s.take i).count v + (s.drop i).count v := by
    rw [← List.count_append, List.take_append_drop]
  omega

theorem count_flatMap_ge {β γ : Type} [DecidableEq γ] (L : List β) (f : β → List γ) (c : γ)
    (good : β → Bool) (n : Nat) (h : ∀ a ∈ L, good a = true → n ≤ (f a).count c) :
    (L.filter good).length * n ≤ (L.flatMap f).count c := by
  induction L with
  | nil => simp
  | cons a t ih =>
    have iht := ih (fun b hb => h b (List.mem_cons_of_mem _ hb))
    rw [List.flatMap_cons, List.count_append]
    by_cases hg : good a = true
    · have := h a (List.mem_cons_self _ _) hg
      rw [List.filter_cons_of_pos hg, List.length_cons]
      nlinarith
    · rw [List.filter_cons_of_neg hg]
      omega

theorem count_map_ge {β γ : Type} [DecidableEq γ] (L : List β) (g : β → γ) (c : γ)
    (good : β → Bool) (h : ∀ a ∈ L, good a = true → g a = c) :
    (L.filter good).length ≤ (L.map g).count c := by
  induction L with
  | nil => simp
  | cons a t ih =>
    have iht := ih (fun b hb => h b (List.mem_cons_of_mem _ hb))
    rw [List.map_cons, List.count_cons]
    by_cases hg : good a = true
    · rw [List.filter_cons_of_pos hg, List.length_cons]
      have := h a (List.mem_cons_self _ _) hg
      simp [this]
      omega
    · rw [List.filter_cons_of_neg hg]
      omega

theorem filter_block (w : Nat) (good : Int → Bool)
    (h : (∀ d : Int, -(w : Int) ≤ d → d ≤ -1 → good d = true) ∨
      (∀ d : Int, 1 ≤ d → d ≤ w → good d = true)) :
    w ≤ ((loopOffsets (w : Int)).filter good).length := by
  have hn : (2 * (w : Int) + 1).toNat = w + (w + 1) := by omega
  unfold loopOffsets
  rw [hn]
  rcases h with h | h
  · rw [List.range_add, List.map_append, List.filter_append, List.length_append]
    have : List.filter good (List.map (fun (k : Nat) => (k : Int) - w) (List.range w)) =
        List.map (fun (k : Nat) => (k : Int) - w) (List.range w) := by
      rw [List.filter_eq_self]
      intro d hd
      obtain ⟨k, hk, rfl⟩ := List.mem_map.1 hd
      have := List.mem_range.1 hk
      exact h _ (by omega) (by omega)
    rw [this]
    simp
  · have hn' : w + (w + 1) = (w + 1) + w := by omega
    rw [hn', List.range_add, List.map_append, List.filter_append, List.length_append]
    have : List.filter good (List.map (fun (k : Nat) => (k : Int) - w)
        (List.map (fun x => w + 1 + x) (List.range w))) =
        List.map (fun (k : Nat) => (k : Int) - w)
          (List.map (fun x => w + 1 + x) (List.range w)) := by
      rw [List.filter_eq_self]
      intro d hd
      obtain ⟨k, hk, rfl⟩ := List.mem_map.1 hd
      obtain ⟨k', hk', rfl⟩ := List.mem_map.1 hk
      have := List.mem_range.1 hk'
      exact h _ (by push_cast; omega) (by push_cast; omega)
    rw [this]
    simp

theorem clamp_block (n : Nat) (hn : 2 ≤ n) (x p : Nat) (hx : x < n) (hp : p < n) (w : Nat) :
    (∀ d : Int, -(w : Int) ≤ d → d ≤ -1 → medianClamp (d + x) n ≠ p) ∨
      (∀ d : Int, 1 ≤ d → d ≤ w → medianClamp (d + x) n ≠ p) := by
  by_cases h1 : x < p
  · left; intro d _ _; unfold medianClamp; omega
  · by_cases h2 : p < x
    · right; intro d _ _; unfold medianClamp; omega
    · by_cases h3 : p + 1 < n
      · right; intro d _ _; unfold medianClamp; omega
      · left; intro d _ _; unfold medianClamp; omega

theorem readPixel_outlier {α : Type} (m : List (List (vec3 α))) (width height px py : Nat)
    (b o : vec3 α)
    (hbg : ∀ x y : Nat, x < width → y < height → (x ≠ px ∨ y ≠ py) → readPixel m x y = some b)
    (hout : readPixel m px py = some o) (i j : Int) (hi0 : 0 ≤ i) (hi : i < width)
    (hj0 : 0 ≤ j) (hj : j < height) :
    readPixel m i j = some (if i = px ∧ j = py then o else b) := by
  obtain ⟨x, rfl⟩ := Int.eq_ofNat_of_zero_le hi0
  obtain ⟨y, rfl⟩ := Int.eq_ofNat_of_zero_le hj0
  by_cases h : x = px ∧ y = py
  · obtain ⟨rfl, rfl⟩ := h
    simp [hout]
  · have h' : ¬ ((x : Int) = px ∧ (y : Int) = py) := by
      intro hh; exact h ⟨by omega, by omega⟩
    rw [if_neg h']
    exact hbg x y (by omega) (by omega) (by omega)

theorem medianWindow_outlier {α : Type} (m : List (List (vec3 α)))
    (width height w px py x y : Nat) (b o : vec3 α) (hw : 1 ≤ width) (hh : 1 ≤ height)
    (hbg : ∀ x y : Nat, x < width → y < height → (x ≠ px ∨ y ≠ py) → readPixel m x y = some b)
    (hout : readPixel m px py = some o) :
    medianWindow m width height w x y = some ((loopOffsets w).flatMap (fun wx =>
      (loopOffsets w).map (fun wy =>
        if medianClamp (wx + x) width = px ∧ medianClamp (wy + y) height = py then o else b))) := by
  unfold medianWindow
  rw [optAll_eq_some_iff, List.map_flatMap]
  congr 1
  funext wx
  rw [List.map_map]
  congr 1
  funext wy
  exact readPixel_outlier m width height px py b o hbg hout _ _
    (medianClamp_bounds _ _ hw).1 (medianClamp_bounds _ _ hw).2
    (medianClamp_bounds _ _ hh).1 (medianClamp_bounds _ _ hh).2

theorem medianSelect_outlier {α : Type} [LinearOrder α] (width height w px py x y : Nat)
    (ch : vec3 α → α) (b o : vec3 α) (hsize : 2 ≤ width * height) (hw : 1 ≤ w)
    (hx : x < width) (hy : y < height) (hpx : px < width) (hpy : py < height)
    (hle : ch b ≤ ch o) :
    medianSelect (((loopOffsets w).flatMap (fun wx =>
      (loopOffsets w).map (fun wy =>
        if medianClamp (wx + x) width = px ∧ medianClamp (wy + y) height = py
        then o else b))).map ch) w = some (ch b) := by
  unfold medianSelect
  apply sorted_getElem_of_count
  · intro a ha
    obtain ⟨c, hc, rfl⟩ := List.mem_map.1 ha
    obtain ⟨wx, -, hc⟩ := List.mem_flatMap.1 hc
    obtain ⟨wy, -, rfl⟩ := List.mem_map.1 hc
    split_ifs
    · exact hle
    · exact le_refl _
  · rw [List.map_flatMap]
    have hidx : w * w / 2 < w * (2 * w + 1) := by
      have : w * w / 2 ≤ w * w := Nat.div_le_self _ _
      nlinarith
    have hidx' : w * w / 2 < (2 * w + 1) * w := by
      rw [Nat.mul_comm (2 * w + 1) w]; exact hidx
    by_cases hwd : 2 ≤ width
    · -- a block of `w` columns of the window avoids the outlier's column
      have hblock := filter_block w (fun d => decide (medianClamp (d + x) width ≠ px))
        (by
          rcases clamp_block width hwd x px hx hpx w with h | h
          · left; intro d h1 h2; exact decide_eq_true (h d h1 h2)
          · right; intro d h1 h2; exact decide_eq_true (h d h1 h2))
      refine lt_of_lt_of_le hidx (le_trans (Nat.mul_le_mul_right _ hblock)
        (count_flatMap_ge _ _ _ _ _ ?_))
      intro wx _ hgood
      have hne : medianClamp (wx + x) width ≠ px := of_decide_eq_true hgood
      have : (List.map ch (List.map (fun wy =>
          if medianClamp (wx + x) width = px ∧ medianClamp (wy + y) height = py
          then o else b) (loopOffsets w))) = List.replicate (2 * w + 1) (ch b) := by
        rw [List.map_map, ← loopOffsets_length w, ← List.map_const']
        congr 1
        funext wy
        simp [hne]
      rw [this, List.count_replicate_self]
    · -- the map is a single column of at least two rows
      have hht : 2 ≤ height := by
        have : width = 1 := by omega
        subst this; omega
      have hblock := filter_block w (fun d => decide (medianClamp (d + y) height ≠ py))
        (by
          rcases clamp_block height hht y py hy hpy w with h | h
          · left; intro d h1 h2; exact decide_eq_true (h d h1 h2)
          · right; intro d h1 h2; exact decide_eq_true (h d h1 h2))
      have hall : ((loopOffsets (w : Int)).filter (fun _ => true)).length = 2 * w + 1 := by
        rw [List.filter_eq_self.2 (fun _ _ => rfl), loopOffsets_length]
      refine lt_of_lt_of_le hidx' (le_trans (le_of_eq (by rw [hall]))
        (count_flatMap_ge _ _ _ (fun _ => true) w ?_))
      intro wx _ _
      rw [List.map_map]
      refine le_trans hblock (count_map_ge _ _ _ _ ?_)
      intro wy _ hgood
      have hne : medianClamp (wy + y) height ≠ py := of_decide_eq_true hgood
      simp [hne]

/-- C4, the claim as stated fails: a field of colour `(5,5,5)` with the centre
pixel `(0,0,0)`, half-window `1`.  The output at the outlier is the outlier's
colour, not the background. -/
theorem MedianFilter_keeps_dark_outlier :
    (MedianFilter c4Grid 3 3 1).bind (fun out => readPixel out 1 1) = some ⟨0, 0, 0⟩ ∧
    (∀ x y : Fin 3, (x.val ≠ 1 ∨ y.val ≠ 1) → readPixel c4Grid x.val y.val = some ⟨5, 5, 5⟩) ∧
    readPixel c4Grid 1 1 = some ⟨0, 0, 0⟩ := by
  decide

/-- C4 (amended): in a map of at least two pixels in which every pixel holds
`b` except pixel `(px, py)`, which holds `o` with no channel below that of `b`,
`MedianFilter` with half-window `w ≥ 1` returns `b` at every pixel, in
particular at the outlier and at every pixel whose window contains it. -/
theorem MedianFilter_removes_bright_outlier {α : Type} [LinearOrder α]
    (m : List (List (vec3 α))) (width height w px py : Nat) (b o : vec3 α)
    (hm : isGrid m width height) (hsize : 2 ≤ width * height) (hw : 1 ≤ w)
    (hpx : px < width) (hpy : py < height)
    (hbg : ∀ x y : Nat, x < width → y < height → (x ≠ px ∨ y ≠ py) → readPixel m x y = some b)
    (hout : readPixel m px py = some o)
    (hr : b.r ≤ o.r) (hg : b.g ≤ o.g) (hb : b.b ≤ o.b) :
    ∃ out, MedianFilter m width height w = some out ∧
      ∀ x y : Nat, x < width → y < height → readPixel out x y = some b := by
  obtain ⟨out, h1, -, h3⟩ := MedianFilter_readPixel m width height w hm
  refine ⟨out, h1, ?_⟩
  intro x y hx hy
  rw [h3 x y hx hy]
  unfold medianPixel
  rw [medianWindow_outlier m width height w px py x y b o (by omega) (by omega) hbg hout]
  simp only
  rw [medianSelect_outlier width height w px py x y vec3.r b o hsize hw hx hy hpx hpy hr,
    medianSelect_outlier width height w px py x y vec3.g b o hsize hw hx hy hpx hpy hg,
    medianSelect_outlier width height w px py x y vec3.b b o hsize hw hx hy hpx hpy hb]

/-- C4 (amended), at a concrete input: two pixels, the second one brighter. -/
theorem MedianFilter_removes_bright_outlier_witness :
    ∃ out, MedianFilter c4Bright 2 1 1 = some out ∧
      ∀ x y : Nat, x < 2 → y < 1 → readPixel out x y = some ⟨5, 5, 5⟩ :=
  MedianFilter_removes_bright_outlier c4Bright 2 1 1 1 0 ⟨5, 5, 5⟩ ⟨9, 9, 9⟩ (by decide)
    (by decide) (by decide) (by decide) (by decide)
    (by
      intro x y hx hy h
      obtain rfl : y = 0 := by omega
      obtain rfl : x = 0 := by omega
      decide)
    (by decide) (by decide) (by decide) (by decide)

/-! ## The sampling loop: pixel by pixel -/

theorem gateSkips_iff {α : Type} [LinearOrderedField α] (rays_count : Nat) (error : α)
    (p : Pixel α) :
    gateSkips rays_count error p = true ↔
      10 < rays_count ∧ 0 < p.samples ∧ rays_count % 4 ≠ 0 ∧
      p.color2.r / (p.samples : α) - (p.color.r / (p.samples : α)) ^ 2 < error ∧
      p.color2.g / (p.samples : α) - (p.color.g / (p.samples : α)) ^ 2 < error ∧
      p.color2.b / (p.samples : α) - (p.color.b / (p.samples : α)) ^ 2 < error := by
  simp only [gateSkips, variance, vec3.sub, vec3.divScalar, sqr, vec3.mul, gt_iff_lt,
    Nat.cast_pos, pow_two]
  split_ifs with h1 h2
  · simp only [true_iff]
    exact ⟨h1.1, h1.2, h2.1, h2.2.1, h2.2.2.1, h2.2.2.2⟩
  · simp only [Bool.false_eq_true, false_iff]
    rintro ⟨-, -, h3, h4, h5, h6⟩
    exact h2 ⟨h3, h4, h5, h6⟩
  · simp only [Bool.false_eq_true, false_iff]
    rintro ⟨h3, h4, -⟩
    exact h1 ⟨h3, h4⟩

theorem setAt_eq {β : Type} (st : Nat → Nat → β) (x y : Nat) (v : β) :
    setAt st x y v x y = v := by
  simp [setAt]

theorem forPixels_row {β : Type} (width y : Nat) (g : Nat → Nat → β → Option β)
    (G : Nat → Nat → β) (st : Nat → Nat → β)
    (h : ∀ x, x < width → g x y (st x y) = some (G x y)) (n : Nat) (hn : n ≤ width) :
    (List.range n).foldlM (fun s x => (g x y (s x y)).map (setAt s x y)) st =
      some (fun i j => if i < n ∧ j = y then G i j else st i j) := by
  induction n with
  | zero => simp
  | succ n ih =>
    rw [List.range_succ, List.foldlM_append, ih (by omega)]
    simp only [Option.some_bind, List.foldlM_cons, List.foldlM_nil, lt_self_iff_false,
      false_and, if_false, h n (by omega), Option.map_some', Option.bind_eq_bind,
      Option.pure_def]
    congr 1
    funext i j
    simp only [setAt]
    by_cases hj : j = y
    · subst hj
      by_cases hi : i = n
      · subst hi; simp
      · have : (i < n + 1) ↔ (i < n) := by omega
        simp [hi, this]
    · simp [hj]

theorem forPixels_pointwise {β : Type} (width height : Nat) (g : Nat → Nat → β → Option β)
    (G : Nat → Nat → β) (st : Nat → Nat → β)
    (h : ∀ x y, x < width → y < height → g x y (st x y) = some (G x y)) :
    forPixels width height (fun x y s => (g x y (s x y)).map (setAt s x y)) st =
      some (fun i j => if i < width ∧ j < height then G i j else st i j) := by
  unfold forPixels
  have key : ∀ k, k ≤ height →
      (List.range k).foldlM (fun s y =>
        (List.range width).foldlM (fun s x => (g x y (s x y)).map (setAt s x y)) s) st =
      some (fun i j => if i < width ∧ j < k then G i j else st i j) := by
    intro k
    induction k with
    | zero => intro _; simp
    | succ k ih =>
      intro hk
      rw [List.range_succ, List.foldlM_append, ih (by omega)]
      simp only [Option.some_bind, List.foldlM_cons, List.foldlM_nil, Option.bind_eq_bind,
        Option.pure_def]
      rw [forPixels_row width k g G _ (by
        intro x hx
        simp only [lt_self_iff_false, and_false, if_false]
        exact h x k hx (by omega)) width (le_refl _)]
      simp only [Option.some_bind]
      congr 1
      funext i j
      by_cases hi : i < width
      · by_cases hj : j = k
        · subst hj; simp [hi]
        · have : (j < k + 1) ↔ (j < k) := by omega
          simp [hi, hj, this]
      · simp [hi]
  exact key height (le_refl _)

theorem samplingPass_pixel {α Ray : Type} [Sub α] [Mul α] [Div α] [Zero α] [NatCast α] [LT α]
    [DecidableRel (fun a b : α => a < b)] (scene : Scene α Ray)
    (fuel width height : Nat) (error : α) (update : Nat) (s : LoopState α Ray)
    (P : Nat → Nat → PixelState α Ray)
    (h : ∀ x y, x < width → y < height →
      passPixel scene fuel error x y s.rays_count (s.pixels x y) = some (P x y)) :
    samplingPass scene fuel width height error update s =
      some { rays_count := s.rays_count + 1
             pixels := fun i j => if i < width ∧ j < height then P i j else s.pixels i j
             saves := if checkpointDue update s.rays_count then s.saves ++ [s.rays_count]
                      else s.saves } := by
  unfold samplingPass
  have hgen := forPixels_pointwise width height
    (fun x y v => some (generatePixel scene s.rays_count error x y v))
    (fun x y => generatePixel scene s.rays_count error x y (s.pixels x y)) s.pixels
    (fun _ _ _ _ => rfl)
  simp only [Option.map_some'] at hgen
  rw [hgen]
  simp only
  have htr := forPixels_pointwise width height
    (fun _ _ v => tracePixel scene fuel v) P
    (fun i j => if i < width ∧ j < height
      then generatePixel scene s.rays_count error i j (s.pixels i j) else s.pixels i j)
    (by
      intro x y hx hy
      simp only [hx, hy, and_self, if_true]
      exact h x y hx hy)
  rw [htr]
  simp only [Option.some.injEq, LoopState.mk.injEq, true_and, and_true]
  funext i j
  split_ifs <;> rfl

theorem samplingLoop_pixel {α Ray : Type} [Sub α] [Mul α] [Div α] [Zero α] [NatCast α] [LT α]
    [DecidableRel (fun a b : α => a < b)] (scene : Scene α Ray)
    (fuel width height : Nat) (error : α) (update : Nat) (clock : Nat → Int) (left : Nat)
    (s : LoopState α Ray) (Q : Nat → Nat → PixelState α Ray)
    (h : ∀ x y, x < width → y < height →
      pixelLoop scene fuel error x y left s.rays_count (s.pixels x y) = some (Q x y)) :
    ∃ s', samplingLoop scene fuel width height error update 0 clock left s = some s' ∧
      s'.rays_count = s.rays_count + left ∧
      ∀ x y, x < width → y < height → s'.pixels x y = Q x y := by
  induction left generalizing s with
  | zero =>
    refine ⟨s, rfl, rfl, ?_⟩
    intro x y hx hy
    have := h x y hx hy
    simpa [pixelLoop] using this
  | succ left ih =>
    have hP : ∀ x y, x < width → y < height →
        ∃ p, passPixel scene fuel error x y s.rays_count (s.pixels x y) = some p ∧
          pixelLoop scene fuel error x y left (s.rays_count + 1) p = some (Q x y) := by
      intro x y hx hy
      have := h x y hx hy
      rw [pixelLoop] at this
      cases hp : passPixel scene fuel error x y s.rays_count (s.pixels x y) with
      | none => rw [hp] at this; cases this
      | some p => rw [hp] at this; exact ⟨p, rfl, this⟩
    have hpass := samplingPass_pixel scene fuel width height error update s
      (fun x y => (passPixel scene fuel error x y s.rays_count (s.pixels x y)).getD (s.pixels x y))
      (by
        intro x y hx hy
        obtain ⟨p, hp, -⟩ := hP x y hx hy
        simp only [hp, Option.getD_some])
    obtain ⟨s', hs', hrc, hpix⟩ := ih
      { rays_count := s.rays_count + 1
        pixels := fun i j => if i < width ∧ j < height
          then (passPixel scene fuel error i j s.rays_count (s.pixels i j)).getD (s.pixels i j)
          else s.pixels i j
        saves := if checkpointDue update s.rays_count then s.saves ++ [s.rays_count]
                 else s.saves } (by
      intro x y hx hy
      obtain ⟨p, hp, hq⟩ := hP x y hx hy
      show pixelLoop scene fuel error x y left (s.rays_count + 1)
        (if x < width ∧ y < height
          then (passPixel scene fuel error x y s.rays_count (s.pixels x y)).getD (s.pixels x y)
          else s.pixels x y) = some (Q x y)
      rw [if_pos ⟨hx, hy⟩, hp]
      exact hq)
    refine ⟨s', ?_, ?_, hpix⟩
    · rw [samplingLoop]
      have ht : timeUp 0 (clock s.rays_count) = false := by simp [timeUp]
      rw [ht, hpass]
      exact hs'
    · rw [hrc]
      show s.rays_count + 1 + left = s.rays_count + (left + 1)
      omega

theorem gateSkips_constantAcc {α : Type} [LinearOrderedField α] (c : vec3 α) (n : Nat)
    (rays_count : Nat) (error : α) (herr : 0 < error) :
    gateSkips rays_count error (constantAcc c n) =
      decide (10 < rays_count ∧ 0 < n ∧ rays_count % 4 ≠ 0) := by
  rw [Bool.eq_iff_iff, gateSkips_iff, decide_eq_true_iff]
  constructor
  · rintro ⟨h1, h2, h3, -⟩
    exact ⟨h1, h2, h3⟩
  · rintro ⟨h1, h2, h3⟩
    have hn : (n : α) ≠ 0 := Nat.cast_ne_zero.2 (by
      have : 0 < (constantAcc c n).samples := h2
      simp only [constantAcc] at this ⊢
      omega)
    have hz : ∀ v : α, (n : α) * (v * v) / (n : α) - ((n : α) * v / (n : α)) ^ 2 = 0 := by
      intro v
      field_simp
      ring
    refine ⟨h1, h2, h3, ?_, ?_, ?_⟩ <;>
    · simp only [constantAcc]
      rw [hz]
      exact herr

theorem traceLoop_stub {α : Type} [Add α] [Mul α] (c : vec3 α) (fuel : Nat)
    (ray : Bool) (p : Pixel α) :
    traceLoop (stubScene c) (fuel + 1) ray p =
      some (false, if ray then ((stubScene c).TraceRay ray p).2 else p) := by
  cases ray with
  | false => simp [traceLoop, stubScene]
  | true =>
    cases fuel with
    | zero => simp [traceLoop, stubScene]
    | succ f => simp [traceLoop, stubScene]

theorem stub_accumulate {α : Type} [LinearOrderedField α] (c : vec3 α) (n : Nat) (ray : Bool) :
    ((stubScene c).TraceRay ray (constantAcc c n)).2 = constantAcc c (n + 1) := by
  simp only [stubScene, constantAcc, vec3.add, vec3.mul, Nat.cast_add, Nat.cast_one]
  refine congrArg₂ (fun a b => Pixel.mk a b (n + 1)) ?_ ?_ <;>
  · congr 1 <;> ring

theorem passPixel_stub {α : Type} [LinearOrderedField α] (c : vec3 α) (error : α)
    (herr : 0 < error) (fuel x y k n : Nat) (s : PixelState α Bool)
    (hacc : s.acc = constantAcc c n) (hray : s.ray = false ∨ k ≤ 10) :
    ∃ s', passPixel (stubScene c) (fuel + 1) error x y k s = some s' ∧ s'.ray = false ∧
      s'.acc = constantAcc c
        (if 10 < k ∧ 0 < n ∧ k % 4 ≠ 0 then (n, s.created)
         else (n + 1, s.created ++ [k])).1 ∧
      s'.created =
        (if 10 < k ∧ 0 < n ∧ k % 4 ≠ 0 then (n, s.created)
         else (n + 1, s.created ++ [k])).2 := by
  have hg : gateSkips k error s.acc = decide (10 < k ∧ 0 < n ∧ k % 4 ≠ 0) := by
    rw [hacc]; exact gateSkips_constantAcc c n k error herr
  by_cases hskip : 10 < k ∧ 0 < n ∧ k % 4 ≠ 0
  · have hr : s.ray = false := by
      rcases hray with h | h
      · exact h
      · omega
    have hgen : generatePixel (stubScene c) k error x y s = s := by
      unfold generatePixel
      rw [hg, if_pos (decide_eq_true hskip)]
    refine ⟨{ s with ray := false }, ?_, rfl, ?_, ?_⟩
    · unfold passPixel tracePixel
      rw [hgen, traceLoop_stub, hr]
      rfl
    · rw [if_pos hskip]; exact hacc
    · rw [if_pos hskip]
  · have hgen : generatePixel (stubScene c) k error x y s =
        { s with ray := true, created := s.created ++ [k] } := by
      unfold generatePixel
      rw [hg, if_neg (by simpa using hskip)]
      rfl
    refine ⟨{ acc := constantAcc c (n + 1), ray := false, created := s.created ++ [k] },
      ?_, rfl, ?_, ?_⟩
    · unfold passPixel tracePixel
      rw [hgen, traceLoop_stub]
      simp only [if_true, Option.map_some', hacc, stub_accumulate]
    · rw [if_neg hskip]
    · rw [if_neg hskip]

theorem pixelLoop_stub {α : Type} [LinearOrderedField α] (c : vec3 α) (error : α)
    (herr : 0 < error) (fuel x y : Nat) (left k n : Nat) (s : PixelState α Bool)
    (hacc : s.acc = constantAcc c n) (hray : s.ray = false ∨ k ≤ 10) :
    ∃ s', pixelLoop (stubScene c) (fuel + 1) error x y left k s = some s' ∧
      s'.acc = constantAcc c (gateSchedule left k (n, s.created)).1 ∧
      s'.created = (gateSchedule left k (n, s.created)).2 := by
  induction left generalizing k n s with
  | zero => exact ⟨s, rfl, hacc, rfl⟩
  | succ left ih =>
    obtain ⟨s1, h1, hr1, ha1, hc1⟩ := passPixel_stub c error herr fuel x y k n s hacc hray
    obtain ⟨s', h', ha', hc'⟩ := ih (k + 1) _ s1 ha1 (Or.inl hr1)
    refine ⟨s', ?_, ?_, ?_⟩
    · rw [pixelLoop, h1]; exact h'
    · rw [ha', hc1]; rfl
    · rw [hc', hc1]; rfl

theorem sampling_stub {α : Type} [LinearOrderedField α] (c : vec3 α) (error : α)
    (herr : 0 < error) (fuel width height update : Nat) (clock : Nat → Int) (budget : Nat)
    (ray0 : Bool) :
    ∃ s, sampling (stubScene c) (fuel + 1) width height error update 0 clock budget ray0 =
        some s ∧ s.rays_count = budget ∧
      ∀ x y, x < width → y < height →
        (s.pixels x y).acc = constantAcc c (gateSchedule budget 0 (0, [])).1 ∧
        (s.pixels x y).created = (gateSchedule budget 0 (0, [])).2 := by
  have hinit : ∀ x y : Nat, ((initialState ray0 : LoopState α Bool).pixels x y).acc =
      constantAcc c 0 := by
    intro x y
    simp [initialState, constantAcc]
  have hpix : ∀ x y : Nat, ∃ q,
      pixelLoop (stubScene c) (fuel + 1) error x y budget 0
        ((initialState ray0 : LoopState α Bool).pixels x y) = some q ∧
      q.acc = constantAcc c (gateSchedule budget 0 (0, [])).1 ∧
      q.created = (gateSchedule budget 0 (0, [])).2 := by
    intro x y
    exact pixelLoop_stub c error herr fuel x y budget 0 0 _ (hinit x y) (Or.inr (by omega))
  obtain ⟨s, hs, hrc, hq⟩ := samplingLoop_pixel (stubScene c) (fuel + 1) width height error
    update clock budget (initialState ray0)
    (fun x y => (pixelLoop (stubScene c) (fuel + 1) error x y budget 0
      ((initialState ray0 : LoopState α Bool).pixels x y)).getD
      ((initialState ray0 : LoopState α Bool).pixels x y))
    (by
      intro x y _ _
      obtain ⟨q, hq, -⟩ := hpix x y
      simp only [hq, Option.getD_some]
      exact hq)
  refine ⟨s, hs, by simpa [initialState] using hrc, ?_⟩
  intro x y hx hy
  obtain ⟨q, hq1, hq2, hq3⟩ := hpix x y
  rw [hq x y hx hy, hq1]
  exact ⟨hq2, hq3⟩

/-! ## The variance gate -/

/-- C2, the claim as stated fails: in pass 13 (counted from 0) a pixel with a
single sample of colour `(1,1,1)`, so with `count = 1 ≤ 10`, is skipped when the
threshold is `1`: the generate phase leaves its state as it was and creates no
ray. -/
theorem gate_skips_low_count :
    (c2Pixel.acc.samples ≤ 10) ∧ gateSkips 13 (1 : ℚ) c2Pixel.acc = true ∧
    generatePixel (stubScene (⟨1, 1, 1⟩ : vec3 ℚ)) 13 1 0 0 c2Pixel = c2Pixel := by
  have h : gateSkips 13 (1 : ℚ) c2Pixel.acc = true := by
    rw [gateSkips_iff]
    simp only [c2Pixel]
    norm_num
  refine ⟨by simp [c2Pixel], h, ?_⟩
  unfold generatePixel
  rw [if_pos h]

/-- C2 (amended): for every pass index `rays_count ≤ 10` (counted from 0), and in
any pass for a pixel without a sample, whatever the threshold and the
accumulators, the generate phase does not skip the pixel: a new ray is created
for it in that pass. -/
theorem gate_bootstrap {α Ray : Type} [LinearOrderedField α] (scene : Scene α Ray)
    (rays_count : Nat) (error : α) (x y : Nat) (s : PixelState α Ray)
    (h : rays_count ≤ 10 ∨ s.acc.samples = 0) :
    gateSkips rays_count error s.acc = false ∧
    generatePixel scene rays_count error x y s =
      { s with ray := scene.newRay rays_count x y, created := s.created ++ [rays_count] } := by
  have hg : gateSkips rays_count error s.acc = false := by
    rw [Bool.eq_false_iff]
    intro ht
    obtain ⟨h1, h2, -⟩ := (gateSkips_iff rays_count error s.acc).1 ht
    omega
  refine ⟨hg, ?_⟩
  unfold generatePixel
  rw [hg]
  rfl

/-- C2 (amended), at a concrete input: pass 10, the pixel of `c2Pixel`. -/
theorem gate_bootstrap_witness :
    gateSkips 10 (1 : ℚ) c2Pixel.acc = false ∧
    generatePixel (stubScene (⟨1, 1, 1⟩ : vec3 ℚ)) 10 1 0 0 c2Pixel =
      { c2Pixel with ray := (stubScene (⟨1, 1, 1⟩ : vec3 ℚ)).newRay 10 0 0,
                     created := c2Pixel.created ++ [10] } :=
  gate_bootstrap (stubScene (⟨1, 1, 1⟩ : vec3 ℚ)) 10 1 0 0 c2Pixel (Or.inl (by decide))

/-- C9: for every pixel state (in particular with `count > 10`), (i) if the pass
index is a multiple of 4 the pixel is not skipped and a new ray is created for
it, and (ii) whenever the pixel is skipped, the pass index is not a multiple of
4 and each of the three channel variances
`sumSquares / count - (sum / count)^2` is strictly below the threshold. -/
theorem gate_refresh {α Ray : Type} [LinearOrderedField α] (scene : Scene α Ray)
    (rays_count : Nat) (error : α) (x y : Nat) (s : PixelState α Ray) :
    (rays_count % 4 = 0 →
      gateSkips rays_count error s.acc = false ∧
      (generatePixel scene rays_count error x y s).ray = scene.newRay rays_count x y ∧
      (generatePixel scene rays_count error x y s).created = s.created ++ [rays_count]) ∧
    (gateSkips rays_count error s.acc = true →
      rays_count % 4 ≠ 0 ∧
      s.acc.color2.r / (s.acc.samples : α) - (s.acc.color.r / (s.acc.samples : α)) ^ 2 < error ∧
      s.acc.color2.g / (s.acc.samples : α) - (s.acc.color.g / (s.acc.samples : α)) ^ 2 < error ∧
      s.acc.color2.b / (s.acc.samples : α) - (s.acc.color.b / (s.acc.samples : α)) ^ 2 < error) := by
  constructor
  · intro h4
    have hg : gateSkips rays_count error s.acc = false := by
      rw [Bool.eq_false_iff]
      intro ht
      obtain ⟨-, -, h3, -⟩ := (gateSkips_iff rays_count error s.acc).1 ht
      exact h3 h4
    refine ⟨hg, ?_, ?_⟩ <;>
    · unfold generatePixel
      rw [hg]
      rfl
  · intro ht
    obtain ⟨-, -, h3, h4, h5, h6⟩ := (gateSkips_iff rays_count error s.acc).1 ht
    exact ⟨h3, h4, h5, h6⟩

/-- C9, at concrete inputs: pass 12 samples the pixel `c9Pixel` of 11 equal
samples, pass 13 skips it. -/
theorem gate_refresh_witness :
    (gateSkips 12 (1 : ℚ) c9Pixel.acc = false ∧
      (generatePixel (stubScene (⟨1, 1, 1⟩ : vec3 ℚ)) 12 1 0 0 c9Pixel).ray = true ∧
      (generatePixel (stubScene (⟨1, 1, 1⟩ : vec3 ℚ)) 12 1 0 0 c9Pixel).created =
        c9Pixel.created ++ [12]) ∧
    (13 % 4 ≠ 0 ∧
      c9Pixel.acc.color2.r / (c9Pixel.acc.samples : ℚ) -
        (c9Pixel.acc.color.r / (c9Pixel.acc.samples : ℚ)) ^ 2 < 1 ∧
      c9Pixel.acc.color2.g / (c9Pixel.acc.samples : ℚ) -
        (c9Pixel.acc.color.g / (c9Pixel.acc.samples : ℚ)) ^ 2 < 1 ∧
      c9Pixel.acc.color2.b / (c9Pixel.acc.samples : ℚ) -
        (c9Pixel.acc.color.b / (c9Pixel.acc.samples : ℚ)) ^ 2 < 1) :=
  ⟨(gate_refresh (stubScene (⟨1, 1, 1⟩ : vec3 ℚ)) 12 1 0 0 c9Pixel).1 (by decide),
   (gate_refresh (stubScene (⟨1, 1, 1⟩ : vec3 ℚ)) 13 1 0 0 c9Pixel).2 (by
      rw [gateSkips_iff]
      simp only [c9Pixel]
      norm_num)⟩

/-! ## The scenario with sample budget 20 -/

/-- C3, the claim as stated fails: with budget 20, no time limit, threshold `1`
and the stub Scene of colour `(1,1,1)` on a one-pixel image, the pixel is not
sampled 14 times; pass 12 (counted from 1) is skipped and pass 13 is sampled. -/
theorem stub_budget20_not_fourteen :
    ∃ s, sampling (stubScene (⟨1, 1, 1⟩ : vec3 ℚ)) 1 1 1 1 0 0 (fun _ => 0) 20 false = some s ∧
      (s.pixels 0 0).created.length ≠ 14 ∧
      12 ∉ (s.pixels 0 0).created.map (· + 1) ∧
      13 ∈ (s.pixels 0 0).created.map (· + 1) := by
  obtain ⟨s, hs, -, hp⟩ := sampling_stub (⟨1, 1, 1⟩ : vec3 ℚ) 1 (by norm_num) 0 1 1 0
    (fun _ => 0) 20 false
  refine ⟨s, hs, ?_⟩
  rw [(hp 0 0 (by decide) (by decide)).2]
  decide

/-! ## The scenario with sample budget 20, in any arithmetic -/

theorem gateSkips_eq_true_iff {α : Type} [Sub α] [Mul α] [Div α] [Zero α] [NatCast α] [LT α]
    [DecidableRel (fun a b : α => a < b)] (rays_count : Nat) (error : α) (p : Pixel α) :
    gateSkips rays_count error p = true ↔
      10 < rays_count ∧ rays_count % 4 ≠ 0 ∧ gateHolds error p = true := by
  unfold gateSkips gateHolds
  rw [decide_eq_true_iff]
  by_cases h1 : rays_count > 10 ∧ (p.samples : α) > 0
  · rw [if_pos h1]
    by_cases h2 : rays_count % 4 ≠ 0 ∧ (variance p).r < error ∧
        (variance p).g < error ∧ (variance p).b < error
    · rw [if_pos h2]
      exact ⟨fun _ => ⟨h1.1, h2.1, h1.2, h2.2⟩, fun _ => rfl⟩
    · rw [if_neg h2]
      constructor
      · intro h; cases h
      · rintro ⟨-, h3, -, h4⟩
        exact absurd ⟨h3, h4⟩ h2
  · rw [if_neg h1]
    constructor
    · intro h; cases h
    · rintro ⟨h3, -, h4, -⟩
      exact absurd ⟨h3, h4⟩ h1

theorem passPixel_stub_any {α : Type} [Add α] [Sub α] [Mul α] [Div α] [Zero α] [NatCast α]
    [LT α] [DecidableRel (fun a b : α => a < b)] (c : vec3 α) (error : α)
    (fuel x y k n : Nat) (s : PixelState α Bool)
    (hacc : s.acc = stubAcc c n) (hray : s.ray = false ∨ k ≤ 10) :
    ∃ s', passPixel (stubScene c) (fuel + 1) error x y k s = some s' ∧ s'.ray = false ∧
      s'.acc = stubAcc c
        (if 10 < k ∧ k % 4 ≠ 0 ∧ gateHolds error (stubAcc c n) = true then (n, s.created)
         else (n + 1, s.created ++ [k])).1 ∧
      s'.created =
        (if 10 < k ∧ k % 4 ≠ 0 ∧ gateHolds error (stubAcc c n) = true then (n, s.created)
         else (n + 1, s.created ++ [k])).2 := by
  by_cases hskip : 10 < k ∧ k % 4 ≠ 0 ∧ gateHolds error (stubAcc c n) = true
  · have hr : s.ray = false := by
      rcases hray with h | h
      · exact h
      · omega
    have hg : gateSkips k error s.acc = true := by
      rw [hacc]; exact (gateSkips_eq_true_iff k error _).2 hskip
    have hgen : generatePixel (stubScene c) k error x y s = s := by
      unfold generatePixel
      rw [hg, if_pos rfl]
    refine ⟨{ s with ray := false }, ?_, rfl, ?_, ?_⟩
    · unfold passPixel tracePixel
      rw [hgen, traceLoop_stub, hr]
      rfl
    · rw [if_pos hskip]; exact hacc
    · rw [if_pos hskip]
  · have hg : gateSkips k error s.acc = false := by
      rw [Bool.eq_false_iff]
      intro ht
      rw [hacc] at ht
      exact hskip ((gateSkips_eq_true_iff k error _).1 ht)
    have hgen : generatePixel (stubScene c) k error x y s =
        { s with ray := true, created := s.created ++ [k] } := by
      unfold generatePixel
      rw [hg]
      rfl
    refine ⟨{ acc := stubAcc c (n + 1), ray := false, created := s.created ++ [k] },
      ?_, rfl, ?_, ?_⟩
    · unfold passPixel tracePixel
      rw [hgen, traceLoop_stub]
      simp only [if_true, Option.map_some', hacc]
      rfl
    · rw [if_neg hskip]
    · rw [if_neg hskip]

theorem pixelLoop_stub_any {α : Type} [Add α] [Sub α] [Mul α] [Div α] [Zero α] [NatCast α]
    [LT α] [DecidableRel (fun a b : α => a < b)] (c : vec3 α) (error : α)
    (fuel x y : Nat) (left k n : Nat) (s : PixelState α Bool)
    (hacc : s.acc = stubAcc c n) (hray : s.ray = false ∨ k ≤ 10) :
    ∃ s', pixelLoop (stubScene c) (fuel + 1) error x y left k s = some s' ∧
      s'.acc = stubAcc c
        (gateScheduleWith (fun i => gateHolds error (stubAcc c i)) left k (n, s.created)).1 ∧
      s'.created =
        (gateScheduleWith (fun i => gateHolds error (stubAcc c i)) left k (n, s.created)).2 := by
  induction left generalizing k n s with
  | zero => exact ⟨s, rfl, hacc, rfl⟩
  | succ left ih =>
    obtain ⟨s1, h1, hr1, ha1, hc1⟩ := passPixel_stub_any c error fuel x y k n s hacc hray
    obtain ⟨s', h', ha', hc'⟩ := ih (k + 1) _ s1 ha1 (Or.inl hr1)
    refine ⟨s', ?_, ?_, ?_⟩
    · rw [pixelLoop, h1]; exact h'
    · rw [ha', hc1]; rfl
    · rw [hc', hc1]; rfl

theorem sampling_stub_any {α : Type} [Add α] [Sub α] [Mul α] [Div α] [Zero α] [NatCast α]
    [LT α] [DecidableRel (fun a b : α => a < b)] (c : vec3 α) (error : α)
    (fuel width height update : Nat) (clock : Nat → Int) (budget : Nat) (ray0 : Bool) :
    ∃ s, sampling (stubScene c) (fuel + 1) width height error update 0 clock budget ray0 =
        some s ∧ s.rays_count = budget ∧
      ∀ x y, x < width → y < height →
        (s.pixels x y).acc = stubAcc c
          (gateScheduleWith (fun i => gateHolds error (stubAcc c i)) budget 0 (0, [])).1 ∧
        (s.pixels x y).created =
          (gateScheduleWith (fun i => gateHolds error (stubAcc c i)) budget 0 (0, [])).2 := by
  have hpix : ∀ x y : Nat, ∃ q,
      pixelLoop (stubScene c) (fuel + 1) error x y budget 0
        ((initialState ray0 : LoopState α Bool).pixels x y) = some q ∧
      q.acc = stubAcc c
        (gateScheduleWith (fun i => gateHolds error (stubAcc c i)) budget 0 (0, [])).1 ∧
      q.created =
        (gateScheduleWith (fun i => gateHolds error (stubAcc c i)) budget 0 (0, [])).2 := by
    intro x y
    exact pixelLoop_stub_any c error fuel x y budget 0 0 _ rfl (Or.inr (by omega))
  obtain ⟨s, hs, hrc, hq⟩ := samplingLoop_pixel (stubScene c) (fuel + 1) width height error
    update clock budget (initialState ray0)
    (fun x y => (pixelLoop (stubScene c) (fuel + 1) error x y budget 0
      ((initialState ray0 : LoopState α Bool).pixels x y)).getD
      ((initialState ray0 : LoopState α Bool).pixels x y))
    (by
      intro x y _ _
      obtain ⟨q, hq, -⟩ := hpix x y
      simp only [hq, Option.getD_some]
      exact hq)
  refine ⟨s, hs, by simpa [initialState] using hrc, ?_⟩
  intro x y hx hy
  obtain ⟨q, hq1, hq2, hq3⟩ := hpix x y
  rw [hq x y hx hy, hq1]
  exact ⟨hq2, hq3⟩

theorem gateScheduleWith_spec (holds : Nat → Bool) (left k n : Nat) (cr : List Nat)
    (hn : n = cr.length) (hsorted : cr.Sorted (· < ·)) (hlt : ∀ j ∈ cr, j < k)
    (hmem : ∀ j, j < k → (j ∈ cr ↔
      (j ≤ 10 ∨ j % 4 = 0 ∨ holds (cr.filter (fun i => decide (i < j))).length = false))) :
    (gateScheduleWith holds left k (n, cr)).1 =
        (gateScheduleWith holds left k (n, cr)).2.length ∧
      (gateScheduleWith holds left k (n, cr)).2.Sorted (· < ·) ∧
      (∀ j ∈ (gateScheduleWith holds left k (n, cr)).2, j < k + left) ∧
      (∀ j, j < k + left → (j ∈ (gateScheduleWith holds left k (n, cr)).2 ↔
        (j ≤ 10 ∨ j % 4 = 0 ∨
          holds ((gateScheduleWith holds left k (n, cr)).2.filter
            (fun i => decide (i < j))).length = false))) := by
  induction left generalizing k n cr with
  | zero => exact ⟨hn, hsorted, hlt, hmem⟩
  | succ left ih =>
    have hfilter : cr.filter (fun i => decide (i < k)) = cr := by
      rw [List.filter_eq_self]
      intro j hj
      exact decide_eq_true (hlt j hj)
    have hk : k + (left + 1) = k + 1 + left := by omega
    rw [gateScheduleWith, hk]
    by_cases hskip : 10 < k ∧ k % 4 ≠ 0 ∧ holds n = true
    · rw [if_pos hskip]
      apply ih (k + 1) n cr hn hsorted (fun j hj => Nat.lt_succ_of_lt (hlt j hj))
      intro j hj
      by_cases hjk : j = k
      · subst hjk
        rw [hfilter, ← hn]
        constructor
        · intro h; exact absurd (hlt j h) (lt_irrefl _)
        · rintro (h | h | h)
          · omega
          · exact absurd h hskip.2.1
          · rw [hskip.2.2] at h; cases h
      · exact hmem j (by omega)
    · rw [if_neg hskip]
      have hfilter' : ∀ j, j ≤ k →
          (cr ++ [k]).filter (fun i => decide (i < j)) =
            cr.filter (fun i => decide (i < j)) := by
        intro j hj
        rw [List.filter_append]
        have : [k].filter (fun i => decide (i < j)) = [] := by
          rw [List.filter_cons_of_neg (by simp; omega)]
          rfl
        rw [this, List.append_nil]
      apply ih (k + 1) (n + 1) (cr ++ [k])
      · rw [List.length_append, hn]; rfl
      · unfold List.Sorted
        rw [List.pairwise_append]
        refine ⟨hsorted, List.pairwise_singleton _ _, ?_⟩
        intro a ha b hb
        rw [List.mem_singleton] at hb
        rw [hb]; exact hlt a ha
      · intro j hj
        rcases List.mem_append.1 hj with h | h
        · exact Nat.lt_succ_of_lt (hlt j h)
        · rw [List.mem_singleton] at h; omega
      · intro j hj
        rw [hfilter' j (by omega)]
        by_cases hjk : j = k
        · subst hjk
          rw [hfilter, ← hn]
          constructor
          · intro _
            by_contra hcon
            push_neg at hcon
            apply hskip
            refine ⟨by omega, hcon.2.1, ?_⟩
            cases hh : holds n with
            | true => rfl
            | false => exact absurd hh hcon.2.2
          · intro _; exact List.mem_append_right _ (List.mem_singleton_self _)
        · rw [List.mem_append, List.mem_singleton]
          constructor
          · rintro (h | h)
            · exact (hmem j (by omega)).1 h
            · exact absurd h hjk
          · intro h
            exact Or.inl ((hmem j (by omega)).2 h)

theorem gateScheduleWith_sample (holds : Nat → Bool) (left k n : Nat) (cr : List Nat)
    (h : k ≤ 10 ∨ k % 4 = 0 ∨ holds n = false) :
    gateScheduleWith holds (left + 1) k (n, cr) =
      gateScheduleWith holds left (k + 1) (n + 1, cr ++ [k]) := by
  rw [gateScheduleWith, if_neg]
  rintro ⟨h1, h2, h3⟩
  rcases h with h | h | h
  · omega
  · exact h2 h
  · rw [h3] at h; cases h

theorem gateScheduleWith_skip (holds : Nat → Bool) (left k n : Nat) (cr : List Nat)
    (h1 : 10 < k) (h2 : k % 4 ≠ 0) (h3 : holds n = true) :
    gateScheduleWith holds (left + 1) k (n, cr) =
      gateScheduleWith holds left (k + 1) (n, cr) := by
  rw [gateScheduleWith, if_pos ⟨h1, h2, h3⟩]

theorem gateScheduleWith_thirteen (holds : Nat → Bool) (h11 : holds 11 = true)
    (h12 : holds 12 = true) (h13 : holds 13 = true) :
    gateScheduleWith holds 20 0 (0, []) =
      (13, [0, 1, 2, 3, 4, 5, 6, 7, 8, 9, 10, 12, 16]) := by
  rw [gateScheduleWith_sample holds 19 0 0 _ (Or.inl (by decide)),
    gateScheduleWith_sample holds 18 1 1 _ (Or.inl (by decide)),
    gateScheduleWith_sample holds 17 2 2 _ (Or.inl (by decide)),
    gateScheduleWith_sample holds 16 3 3 _ (Or.inl (by decide)),
    gateScheduleWith_sample holds 15 4 4 _ (Or.inl (by decide)),
    gateScheduleWith_sample holds 14 5 5 _ (Or.inl (by decide)),
    gateScheduleWith_sample holds 13 6 6 _ (Or.inl (by decide)),
    gateScheduleWith_sample holds 12 7 7 _ (Or.inl (by decide)),
    gateScheduleWith_sample holds 11 8 8 _ (Or.inl (by decide)),
    gateScheduleWith_sample holds 10 9 9 _ (Or.inl (by decide)),
    gateScheduleWith_sample holds 9 10 10 _ (Or.inl (by decide)),
    gateScheduleWith_skip holds 8 11 11 _ (by decide) (by decide) h11,
    gateScheduleWith_sample holds 7 12 11 _ (Or.inr (Or.inl (by decide))),
    gateScheduleWith_skip holds 6 13 12 _ (by decide) (by decide) h12,
    gateScheduleWith_skip holds 5 14 12 _ (by decide) (by decide) h12,
    gateScheduleWith_skip holds 4 15 12 _ (by decide) (by decide) h12,
    gateScheduleWith_sample holds 3 16 12 _ (Or.inr (Or.inl (by decide))),
    gateScheduleWith_skip holds 2 17 13 _ (by decide) (by decide) h13,
    gateScheduleWith_skip holds 1 18 13 _ (by decide) (by decide) h13,
    gateScheduleWith_skip holds 0 19 13 _ (by decide) (by decide) h13]
  rfl

theorem stubAcc_exact {α : Type} [LinearOrderedField α] (c : vec3 α) (n : Nat) :
    stubAcc c n = constantAcc c n := by
  induction n with
  | zero => simp [stubAcc, constantAcc]
  | succ n ih => rw [stubAcc, ih, stub_accumulate]

theorem gateHolds_exact {α : Type} [LinearOrderedField α] (c : vec3 α) (n : Nat)
    (error : α) (herr : 0 < error) (hn : 0 < n) :
    gateHolds error (stubAcc c n) = true := by
  have h := gateSkips_constantAcc c n 11 error herr
  rw [decide_eq_true ⟨by decide, hn, by decide⟩, gateSkips_eq_true_iff] at h
  rw [stubAcc_exact]
  exact h.2.2

/-- C3 (amended): with sample budget 20, time limit 0 and the stub Scene of a
fixed colour `c`, in any arithmetic for the colour values, the loop runs its 20
passes and for every pixel the passes in which a ray is created and traced are
given by the gate's test alone: pass `k` (numbering passes from 1, pass `k`
being `rays_count = k - 1`, the value that `created` records) samples exactly
when `k ≤ 11`, or `k - 1` is a multiple of 4 (passes 13 and 17), or the test
`sample_count > 0 && D.r < error && D.g < error && D.b < error` fails on the
accumulators of the samples taken before pass `k`.  So passes 1..11, 13 and 17
always sample, and the pixel ends with the accumulators of as many samples as
passes sampled.  When the test holds on the accumulators of 11, 12 and 13
samples of `c`, a ray is created and traced in exactly 13 passes, namely 1..11,
13 and 17, and the passes 12, 14, 15, 16, 18, 19, 20 are skipped. -/
theorem stub_budget20_passes {α : Type} [Add α] [Sub α] [Mul α] [Div α] [Zero α]
    [NatCast α] [LT α] [DecidableRel (fun a b : α => a < b)] (c : vec3 α) (error : α)
    (fuel width height update : Nat) (clock : Nat → Int) (ray0 : Bool) :
    ∃ s, sampling (stubScene c) (fuel + 1) width height error update 0 clock 20 ray0 = some s ∧
      s.rays_count = 20 ∧
      ∀ x y, x < width → y < height →
        (s.pixels x y).created.Sorted (· < ·) ∧
        (∀ k, k < 20 → (k ∈ (s.pixels x y).created ↔
          (k ≤ 10 ∨ k % 4 = 0 ∨
            gateHolds error (stubAcc c
              ((s.pixels x y).created.filter (fun i => decide (i < k))).length) = false))) ∧
        (∀ k ∈ (s.pixels x y).created, k < 20) ∧
        (s.pixels x y).acc = stubAcc c (s.pixels x y).created.length ∧
        (gateHolds error (stubAcc c 11) = true → gateHolds error (stubAcc c 12) = true →
          gateHolds error (stubAcc c 13) = true →
          (s.pixels x y).created.map (· + 1) = [1, 2, 3, 4, 5, 6, 7, 8, 9, 10, 11, 13, 17] ∧
          (s.pixels x y).created.length = 13 ∧
          (s.pixels x y).acc = stubAcc c 13) := by
  obtain ⟨s, hs, hrc, hp⟩ := sampling_stub_any c error fuel width height update clock 20 ray0
  refine ⟨s, hs, hrc, ?_⟩
  intro x y hx hy
  obtain ⟨h1, h2⟩ := hp x y hx hy
  obtain ⟨g1, g2, g3, g4⟩ := gateScheduleWith_spec (fun i => gateHolds error (stubAcc c i))
    20 0 0 [] rfl List.sorted_nil (fun j hj => absurd hj (List.not_mem_nil j))
    (fun j hj => absurd hj (Nat.not_lt_zero j))
  rw [h1, h2]
  refine ⟨g2, ?_, ?_, ?_, ?_⟩
  · intro k hk
    exact g4 k (by omega)
  · intro k hk
    have := g3 k hk
    omega
  · rw [g1]
  · intro h11 h12 h13
    rw [gateScheduleWith_thirteen (fun i => gateHolds error (stubAcc c i)) h11 h12 h13]
    exact ⟨rfl, rfl, rfl⟩

/-- C3 (amended), at a concrete input: colour `(1, 1, 1)`, threshold `1`, a
`2 × 2` image, rational arithmetic; the test holds on the accumulators of 11,
12 and 13 samples, so exactly the passes 1..11, 13 and 17 sample. -/
theorem stub_budget20_passes_witness :
    ∃ s, sampling (stubScene (⟨1, 1, 1⟩ : vec3 ℚ)) (0 + 1) 2 2 1 0 0
        (fun _ => 0) 20 false = some s ∧
      s.rays_count = 20 ∧
      ∀ x y, x < 2 → y < 2 →
        (s.pixels x y).created.map (· + 1) = [1, 2, 3, 4, 5, 6, 7, 8, 9, 10, 11, 13, 17] ∧
        (s.pixels x y).created.length = 13 ∧
        (s.pixels x y).acc = stubAcc (⟨1, 1, 1⟩ : vec3 ℚ) 13 := by
  obtain ⟨s, hs, hrc, hp⟩ := stub_budget20_passes (⟨1, 1, 1⟩ : vec3 ℚ) 1 0 2 2 0
    (fun _ => 0) false
  exact ⟨s, hs, hrc, fun x y hx hy => (hp x y hx hy).2.2.2.2
    (gateHolds_exact _ 11 1 one_pos (by decide))
    (gateHolds_exact _ 12 1 one_pos (by decide))
    (gateHolds_exact _ 13 1 one_pos (by decide))⟩

/-! ## Refract -/

theorem vec4_dot_sq_le (a b : vec4) (ha : vec4.dot a a = 1) (hb : vec4.dot b b = 1) :
    vec4.dot a b * vec4.dot a b ≤ 1 := by
  unfold vec4.dot at *
  nlinarith [sq_nonneg (a.x * b.y - a.y * b.x), sq_nonneg (a.x * b.z - a.z * b.x),
    sq_nonneg (a.x * b.w - a.w * b.x), sq_nonneg (a.y * b.z - a.z * b.y),
    sq_nonneg (a.y * b.w - a.w * b.y), sq_nonneg (a.z * b.w - a.w * b.z)]

theorem Refract_of_not_gt (d n : vec4) (eta : ℝ)
    (h : ¬ eta * Real.sqrt (1 - vec4.dot n d * vec4.dot n d) > 1) :
    Refract d n eta =
      vec4.add (vec4.scale d eta) (vec4.scale n (eta * (-vec4.dot n d) -
        Real.sqrt (1 - eta * Real.sqrt (1 - vec4.dot n d * vec4.dot n d) *
          (eta * Real.sqrt (1 - vec4.dot n d * vec4.dot n d))))) := by
  unfold Refract
  simp only [neg_mul_neg]
  rw [if_neg h]

theorem Refract_of_gt (d n : vec4) (eta : ℝ)
    (h : eta * Real.sqrt (1 - vec4.dot n d * vec4.dot n d) > 1) :
    Refract d n eta = reflect d n := by
  unfold Refract
  simp only [neg_mul_neg]
  rw [if_pos h]

/-- C5: for unit vectors `d` and `n` with `c = -dot(n,d) ≥ 0` and `eta > 0` with
`eta * sqrt(1 - c^2) ≤ 1`, `Refract(d, n, eta)` is
`t = eta*d + n*(eta*c - sqrt(1 - eta^2*(1 - c^2)))`, and `t` satisfies Snell's
law: `t` has unit length, `dot(t,n) = -sqrt(1 - eta^2*(1 - c^2))`, and the sine
`sqrt(1 - dot(t,n)^2)` of the angle between `t` and `-n` is `eta` times the sine
`sqrt(1 - c^2)` of the incidence angle. -/
theorem Refract_snell (d n : vec4) (eta : ℝ) (hd : vec4.dot d d = 1) (hn : vec4.dot n n = 1)
    (_hc : 0 ≤ -vec4.dot n d) (heta : 0 < eta)
    (hs : eta * Real.sqrt (1 - (-vec4.dot n d) ^ 2) ≤ 1) :
    Refract d n eta =
      ⟨eta * d.x + n.x * (eta * (-vec4.dot n d) -
          Real.sqrt (1 - eta ^ 2 * (1 - (-vec4.dot n d) ^ 2))),
       eta * d.y + n.y * (eta * (-vec4.dot n d) -
          Real.sqrt (1 - eta ^ 2 * (1 - (-vec4.dot n d) ^ 2))),
       eta * d.z + n.z * (eta * (-vec4.dot n d) -
          Real.sqrt (1 - eta ^ 2 * (1 - (-vec4.dot n d) ^ 2))),
       eta * d.w + n.w * (eta * (-vec4.dot n d) -
          Real.sqrt (1 - eta ^ 2 * (1 - (-vec4.dot n d) ^ 2)))⟩ ∧
    vec4.dot (Refract d n eta) (Refract d n eta) = 1 ∧
    vec4.dot (Refract d n eta) n = -Real.sqrt (1 - eta ^ 2 * (1 - (-vec4.dot n d) ^ 2)) ∧
    Real.sqrt (1 - (vec4.dot (Refract d n eta) n) ^ 2) =
      eta * Real.sqrt (1 - (-vec4.dot n d) ^ 2) := by
  have hcs : vec4.dot n d * vec4.dot n d ≤ 1 := vec4_dot_sq_le n d hn hd
  have hsq : (-vec4.dot n d) ^ 2 = vec4.dot n d * vec4.dot n d := by ring
  rw [hsq] at hs ⊢
  set q := vec4.dot n d with hq
  have h1 : 0 ≤ 1 - q * q := by linarith
  have hS : Real.sqrt (1 - q * q) * Real.sqrt (1 - q * q) = 1 - q * q :=
    Real.mul_self_sqrt h1
  have hS0 : 0 ≤ Real.sqrt (1 - q * q) := Real.sqrt_nonneg _
  have hsin : eta * Real.sqrt (1 - q * q) * (eta * Real.sqrt (1 - q * q)) =
      eta ^ 2 * (1 - q * q) := by
    calc eta * Real.sqrt (1 - q * q) * (eta * Real.sqrt (1 - q * q))
        = eta ^ 2 * (Real.sqrt (1 - q * q) * Real.sqrt (1 - q * q)) := by ring
      _ = eta ^ 2 * (1 - q * q) := by rw [hS]
  have h2 : 0 ≤ 1 - eta ^ 2 * (1 - q * q) := by
    rw [← hsin]
    have h0 : 0 ≤ eta * Real.sqrt (1 - q * q) := mul_nonneg heta.le hS0
    nlinarith
  have hK : Real.sqrt (1 - eta ^ 2 * (1 - q * q)) * Real.sqrt (1 - eta ^ 2 * (1 - q * q)) =
      1 - eta ^ 2 * (1 - q * q) := Real.mul_self_sqrt h2
  have hR := Refract_of_not_gt d n eta (not_lt.2 hs)
  rw [← hq, hsin] at hR
  set K := Real.sqrt (1 - eta ^ 2 * (1 - q * q)) with hKdef
  have hform : Refract d n eta =
      ⟨eta * d.x + n.x * (eta * (-q) - K), eta * d.y + n.y * (eta * (-q) - K),
       eta * d.z + n.z * (eta * (-q) - K), eta * d.w + n.w * (eta * (-q) - K)⟩ := by
    rw [hR]
    simp only [vec4.add, vec4.scale, vec4.mk.injEq]
    refine ⟨?_, ?_, ?_, ?_⟩ <;> ring
  have hdn : d.x * n.x + d.y * n.y + d.z * n.z + d.w * n.w = q := by
    rw [hq]; unfold vec4.dot; ring
  have hdd : d.x * d.x + d.y * d.y + d.z * d.z + d.w * d.w = 1 := hd
  have hnn : n.x * n.x + n.y * n.y + n.z * n.z + n.w * n.w = 1 := hn
  have hdot : vec4.dot (Refract d n eta) n = -K := by
    rw [hform]
    simp only [vec4.dot]
    have : (eta * d.x + n.x * (eta * (-q) - K)) * n.x + (eta * d.y + n.y * (eta * (-q) - K)) * n.y +
        (eta * d.z + n.z * (eta * (-q) - K)) * n.z + (eta * d.w + n.w * (eta * (-q) - K)) * n.w =
        eta * (d.x * n.x + d.y * n.y + d.z * n.z + d.w * n.w) +
          (eta * (-q) - K) * (n.x * n.x + n.y * n.y + n.z * n.z + n.w * n.w) := by ring
    rw [this, hdn, hnn]
    ring
  refine ⟨hform, ?_, hdot, ?_⟩
  · rw [hform]
    simp only [vec4.dot]
    have : (eta * d.x + n.x * (eta * (-q) - K)) * (eta * d.x + n.x * (eta * (-q) - K)) +
        (eta * d.y + n.y * (eta * (-q) - K)) * (eta * d.y + n.y * (eta * (-q) - K)) +
        (eta * d.z + n.z * (eta * (-q) - K)) * (eta * d.z + n.z * (eta * (-q) - K)) +
        (eta * d.w + n.w * (eta * (-q) - K)) * (eta * d.w + n.w * (eta * (-q) - K)) =
        eta ^ 2 * (d.x * d.x + d.y * d.y + d.z * d.z + d.w * d.w) +
          2 * eta * (eta * (-q) - K) * (d.x * n.x + d.y * n.y + d.z * n.z + d.w * n.w) +
          (eta * (-q) - K) ^ 2 * (n.x * n.x + n.y * n.y + n.z * n.z + n.w * n.w) := by ring
    rw [this, hdd, hdn, hnn]
    linear_combination hK
  · rw [hdot]
    have : 1 - (-K) ^ 2 = (eta * Real.sqrt (1 - q * q)) ^ 2 := by
      linear_combination (-1 : ℝ) * hK - hsin
    rw [this]
    exact Real.sqrt_sq (mul_nonneg heta.le hS0)

/-- C5, at a concrete input: head-on incidence with `eta = 1/2`. -/
theorem Refract_snell_witness :
    Refract c5Incidence c5Normal (1 / 2) =
      ⟨1 / 2 * c5Incidence.x + c5Normal.x * (1 / 2 * (-vec4.dot c5Normal c5Incidence) -
          Real.sqrt (1 - (1 / 2) ^ 2 * (1 - (-vec4.dot c5Normal c5Incidence) ^ 2))),
       1 / 2 * c5Incidence.y + c5Normal.y * (1 / 2 * (-vec4.dot c5Normal c5Incidence) -
          Real.sqrt (1 - (1 / 2) ^ 2 * (1 - (-vec4.dot c5Normal c5Incidence) ^ 2))),
       1 / 2 * c5Incidence.z + c5Normal.z * (1 / 2 * (-vec4.dot c5Normal c5Incidence) -
          Real.sqrt (1 - (1 / 2) ^ 2 * (1 - (-vec4.dot c5Normal c5Incidence) ^ 2))),
       1 / 2 * c5Incidence.w + c5Normal.w * (1 / 2 * (-vec4.dot c5Normal c5Incidence) -
          Real.sqrt (1 - (1 / 2) ^ 2 * (1 - (-vec4.dot c5Normal c5Incidence) ^ 2)))⟩ ∧
    vec4.dot (Refract c5Incidence c5Normal (1 / 2)) (Refract c5Incidence c5Normal (1 / 2)) = 1 ∧
    vec4.dot (Refract c5Incidence c5Normal (1 / 2)) c5Normal =
      -Real.sqrt (1 - (1 / 2) ^ 2 * (1 - (-vec4.dot c5Normal c5Incidence) ^ 2)) ∧
    Real.sqrt (1 - (vec4.dot (Refract c5Incidence c5Normal (1 / 2)) c5Normal) ^ 2) =
      1 / 2 * Real.sqrt (1 - (-vec4.dot c5Normal c5Incidence) ^ 2) :=
  Refract_snell c5Incidence c5Normal (1 / 2)
    (by norm_num [vec4.dot, c5Incidence])
    (by norm_num [vec4.dot, c5Normal])
    (by norm_num [vec4.dot, c5Incidence, c5Normal])
    (by norm_num)
    (by norm_num [vec4.dot, c5Incidence, c5Normal])

/-- C6: whenever `eta * sqrt(1 - dot(n,d)^2) > 1`, `Refract(d, n, eta)` is exactly
the specular reflection `d - 2*dot(n,d)*n` of `d` about `n`; in every other
case the reflection branch is not taken and the result is the refraction
formula `d*eta + n*(eta*cos_i - cos_t)`. -/
theorem Refract_total_reflection (d n : vec4) (eta : ℝ) :
    (eta * Real.sqrt (1 - vec4.dot n d ^ 2) > 1 →
      Refract d n eta =
        ⟨d.x - 2 * vec4.dot n d * n.x, d.y - 2 * vec4.dot n d * n.y,
         d.z - 2 * vec4.dot n d * n.z, d.w - 2 * vec4.dot n d * n.w⟩) ∧
    (¬ eta * Real.sqrt (1 - vec4.dot n d ^ 2) > 1 →
      Refract d n eta =
        vec4.add (vec4.scale d eta) (vec4.scale n (eta * (-vec4.dot n d) -
          Real.sqrt (1 - (eta * Real.sqrt (1 - vec4.dot n d ^ 2)) ^ 2)))) := by
  have hsq : vec4.dot n d ^ 2 = vec4.dot n d * vec4.dot n d := by ring
  rw [hsq]
  constructor
  · intro h
    rw [Refract_of_gt d n eta h]
    simp only [reflect, vec4.sub, vec4.scale, vec4.mk.injEq]
    refine ⟨?_, ?_, ?_, ?_⟩ <;> ring
  · intro h
    rw [Refract_of_not_gt d n eta h, pow_two]

/-- C6, at concrete inputs: grazing incidence with `eta = 2` is reflected;
head-on incidence with `eta = 2` is refracted. -/
theorem Refract_total_reflection_witness :
    Refract c5Incidence c6Normal 2 =
      ⟨c5Incidence.x - 2 * vec4.dot c6Normal c5Incidence * c6Normal.x,
       c5Incidence.y - 2 * vec4.dot c6Normal c5Incidence * c6Normal.y,
       c5Incidence.z - 2 * vec4.dot c6Normal c5Incidence * c6Normal.z,
       c5Incidence.w - 2 * vec4.dot c6Normal c5Incidence * c6Normal.w⟩ ∧
    Refract c5Incidence c5Normal 2 =
      vec4.add (vec4.scale c5Incidence 2) (vec4.scale c5Normal
        (2 * (-vec4.dot c5Normal c5Incidence) -
          Real.sqrt (1 - (2 * Real.sqrt (1 - vec4.dot c5Normal c5Incidence ^ 2)) ^ 2))) :=
  ⟨(Refract_total_reflection c5Incidence c6Normal 2).1
      (by norm_num [vec4.dot, c5Incidence, c6Normal]),
   (Refract_total_reflection c5Incidence c5Normal 2).2
      (by norm_num [vec4.dot, c5Incidence, c5Normal])⟩

/-! ## Tone mapping -/

theorem roundAway_intCast (z : Int) : roundAway (z : ℝ) = z := by
  unfold roundAway
  split_ifs with h
  · have : ⌊(z : ℝ) + 1 / 2⌋ = z := by
      rw [Int.floor_eq_iff]
      constructor <;> norm_num
    rw [this]
  · have : ⌈(z : ℝ) - 1 / 2⌉ = z := by
      rw [Int.ceil_eq_iff]
      constructor <;> norm_num
    rw [this]

/-- C7, the claim as stated fails: for one sample of colour `(1/2, 2, 1)` and
`gamma = 1`, the red channel handed to the image is `127.5` (its integer part is
`127`) where the claim gives `128`, and the green channel is `510` where the
claim gives `255`; the preview and the final write hand over the same values. -/
theorem toneMap_not_clamped_rounded :
    previewPixel 1 c7Pixel = some ⟨255 / 2, 510, 255⟩ ∧
    finalPixel 1 c7Pixel = some ⟨255 / 2, 510, 255⟩ ∧
    specToneChannel 1 (c7Pixel.color.r / (c7Pixel.samples : ℝ)) = 128 ∧
    specToneChannel 1 (c7Pixel.color.g / (c7Pixel.samples : ℝ)) = 255 ∧
    ⌊(255 / 2 : ℝ)⌋ = 127 := by
  have h128 : roundAway ((128 : Int) : ℝ) = ((128 : Int) : ℝ) := roundAway_intCast 128
  have h255 : roundAway ((255 : Int) : ℝ) = ((255 : Int) : ℝ) := roundAway_intCast 255
  refine ⟨?_, ?_, ?_, ?_, ?_⟩
  · simp only [previewPixel, toneMap, c7Pixel, vec3.scale, vec3.map, vec3.divScalar]
    norm_num
  · simp only [finalPixel, finalColor, toneMap, c7Pixel, vec3.scale, vec3.map, vec3.divScalar]
    norm_num
  · simp only [specToneChannel, c7Pixel]
    have : max (0 : ℝ) (min ((1 / 2 / ((1 : Nat) : ℝ)) ^ (1 : ℝ) * 255) 255) = 255 / 2 := by
      norm_num
    rw [this]
    unfold roundAway
    rw [if_pos (by norm_num)]
    have : ⌊(255 / 2 : ℝ) + 1 / 2⌋ = 128 := by
      rw [Int.floor_eq_iff]
      constructor <;> norm_num
    rw [this]
    norm_num
  · simp only [specToneChannel, c7Pixel]
    have : max (0 : ℝ) (min ((2 / ((1 : Nat) : ℝ)) ^ (1 : ℝ) * 255) 255) = ((255 : Int) : ℝ) := by
      norm_num
    rw [this, h255]
    norm_num
  · rw [Int.floor_eq_iff]
    constructor <;> norm_num

/-- C7 (amended): for every pixel with `count > 0`, every `gamma` and every
accumulated sum, each channel of the colour handed to the image, in a
checkpoint preview and in the final write with both filters disabled, is
`pow(sum / count, gamma) * 255`: no clamp and no rounding is applied.  It lies
in `[0, 255]` whenever `gamma ≥ 0` and the normalized channel lies in `[0, 1]`. -/
theorem toneMap_handed (gamma : ℝ) (p : Pixel ℝ) (hcount : 0 < p.samples) :
    previewPixel gamma p =
      some ⟨(p.color.r / (p.samples : ℝ)) ^ gamma * 255,
            (p.color.g / (p.samples : ℝ)) ^ gamma * 255,
            (p.color.b / (p.samples : ℝ)) ^ gamma * 255⟩ ∧
    finalPixel gamma p = previewPixel gamma p ∧
    (0 ≤ gamma →
      ∀ v ∈ [p.color.r / (p.samples : ℝ), p.color.g / (p.samples : ℝ),
             p.color.b / (p.samples : ℝ)],
        0 ≤ v → v ≤ 1 → 0 ≤ v ^ gamma * 255 ∧ v ^ gamma * 255 ≤ 255) := by
  have hne : p.samples ≠ 0 := by omega
  refine ⟨?_, ?_, ?_⟩
  · simp [previewPixel, toneMap, hne, vec3.scale, vec3.map, vec3.divScalar]
  · simp [finalPixel, finalColor, previewPixel, hne]
  · intro hg v _ hv0 hv1
    have h0 : 0 ≤ v ^ gamma := Real.rpow_nonneg hv0 gamma
    have h1 : v ^ gamma ≤ 1 := Real.rpow_le_one hv0 hv1 hg
    constructor <;> nlinarith

/-- C7 (amended), at a concrete input: the pixel `c7Pixel` and `gamma = 1`; its
blue channel is normalized to `1` and handed over as a value in `[0, 255]`. -/
theorem toneMap_handed_witness :
    previewPixel 1 c7Pixel =
      some ⟨(c7Pixel.color.r / (c7Pixel.samples : ℝ)) ^ (1 : ℝ) * 255,
            (c7Pixel.color.g / (c7Pixel.samples : ℝ)) ^ (1 : ℝ) * 255,
            (c7Pixel.color.b / (c7Pixel.samples : ℝ)) ^ (1 : ℝ) * 255⟩ ∧
    finalPixel 1 c7Pixel = previewPixel 1 c7Pixel ∧
    (0 ≤ (c7Pixel.color.b / (c7Pixel.samples : ℝ)) ^ (1 : ℝ) * 255 ∧
      (c7Pixel.color.b / (c7Pixel.samples : ℝ)) ^ (1 : ℝ) * 255 ≤ 255) :=
  ⟨(toneMap_handed 1 c7Pixel (by simp [c7Pixel])).1,
   (toneMap_handed 1 c7Pixel (by simp [c7Pixel])).2.1,
   (toneMap_handed 1 c7Pixel (by simp [c7Pixel])).2.2 (by norm_num)
     (c7Pixel.color.b / (c7Pixel.samples : ℝ)) (by simp)
     (by norm_num [c7Pixel]) (by norm_num [c7Pixel])⟩

/-! ## GaussBlur on a uniform field -/

theorem gaussExtent_pos (r : ℝ) (hr : 0 < r) : 0 < gaussExtent r := by
  unfold gaussExtent
  rw [Int.ceil_pos]
  positivity

theorem gaussWeight_pos (r : ℝ) (hr : 0 < r) (dsq : Int) : 0 < gaussWeight r dsq := by
  unfold gaussWeight
  have : 0 < Real.pi * 2 * r * r := by
    have := Real.pi_pos
    positivity
  exact div_pos (Real.exp_pos _) this

theorem gaussClamp_bounds (v : Int) (n : Nat) (hn : 1 ≤ n) :
    0 ≤ gaussClamp v n ∧ gaussClamp v n < n := by
  unfold gaussClamp
  omega

theorem readPixel_replicate {α : Type} (width height : Nat) (c : vec3 α) (i j : Int)
    (hi0 : 0 ≤ i) (hi : i < width) (hj0 : 0 ≤ j) (hj : j < height) :
    readPixel (List.replicate width (List.replicate height c)) i j = some c := by
  have hi' : i.toNat < width := by omega
  have hj' : j.toNat < height := by omega
  simp [readPixel, hi0, hj0, List.getElem?_replicate, hi', hj']

theorem gaussAccumulate_uniform (c : vec3 ℝ) (s : List (vec3 ℝ × ℝ))
    (hs : ∀ cw ∈ s, cw.1 = c ∧ 0 < cw.2) (a : vec3 ℝ × ℝ) :
    ∃ W : ℝ, 0 ≤ W ∧ (s ≠ [] → 0 < W) ∧
      s.foldl (fun a cw => (vec3.add a.1 (vec3.scale cw.1 cw.2), a.2 + cw.2)) a =
        (vec3.add a.1 (vec3.scale c W), a.2 + W) := by
  induction s generalizing a with
  | nil =>
    refine ⟨0, le_refl _, fun h => absurd rfl h, ?_⟩
    simp [vec3.add, vec3.scale]
  | cons cw t ih =>
    obtain ⟨hc, hw⟩ := hs cw (List.mem_cons_self _ _)
    obtain ⟨W, hW0, -, hW⟩ := ih (fun x hx => hs x (List.mem_cons_of_mem _ hx))
      (vec3.add a.1 (vec3.scale cw.1 cw.2), a.2 + cw.2)
    refine ⟨cw.2 + W, by linarith, fun _ => by linarith, ?_⟩
    rw [List.foldl_cons, hW, hc]
    simp only [vec3.add, vec3.scale, Prod.mk.injEq, vec3.mk.injEq]
    refine ⟨⟨?_, ?_, ?_⟩, ?_⟩ <;> ring

theorem gaussPixel_uniform (r : ℝ) (hr : 0 < r) (width height : Nat) (hw : 1 ≤ width)
    (hh : 1 ≤ height) (cr cg cb : Int) (i j : Nat) :
    gaussPixel (List.replicate width (List.replicate height (⟨cr, cg, cb⟩ : vec3 ℝ)))
      width height r i j = some ⟨cr, cg, cb⟩ := by
  unfold gaussPixel gaussSamples
  have hread : ∀ a b : Int,
      readPixel (List.replicate width (List.replicate height (⟨cr, cg, cb⟩ : vec3 ℝ)))
        (gaussClamp a width) (gaussClamp b height) = some ⟨cr, cg, cb⟩ := fun a b =>
    readPixel_replicate width height _ _ _ (gaussClamp_bounds _ _ hw).1
      (gaussClamp_bounds _ _ hw).2 (gaussClamp_bounds _ _ hh).1 (gaussClamp_bounds _ _ hh).2
  simp only [hread, Option.map_some']
  have hlist : ((loopOffsets (gaussExtent r)).flatMap (fun dy =>
      (loopOffsets (gaussExtent r)).map (fun dx =>
        some ((⟨cr, cg, cb⟩ : vec3 ℝ), gaussWeight r
          (((j : Int) + dx - j) * ((j : Int) + dx - j) +
            ((i : Int) + dy - i) * ((i : Int) + dy - i)))))) =
      ((loopOffsets (gaussExtent r)).flatMap (fun dy =>
        (loopOffsets (gaussExtent r)).map (fun dx =>
          ((⟨cr, cg, cb⟩ : vec3 ℝ), gaussWeight r
            (((j : Int) + dx - j) * ((j : Int) + dx - j) +
              ((i : Int) + dy - i) * ((i : Int) + dy - i)))))).map some := by
    rw [List.map_flatMap]
    congr 1
    funext dy
    rw [List.map_map]
    rfl
  rw [(optAll_eq_some_iff _ _).2 hlist, Option.map_some']
  have hne : (loopOffsets (gaussExtent r)) ≠ [] := by
    have hpos := gaussExtent_pos r hr
    intro h
    have := congrArg List.length h
    simp only [loopOffsets, List.length_map, List.length_range, List.length_nil] at this
    omega
  obtain ⟨d0, hd0⟩ := List.exists_mem_of_ne_nil _ hne
  obtain ⟨W, -, hWpos, hW⟩ := gaussAccumulate_uniform ⟨cr, cg, cb⟩
    ((loopOffsets (gaussExtent r)).flatMap (fun dy =>
      (loopOffsets (gaussExtent r)).map (fun dx =>
        ((⟨cr, cg, cb⟩ : vec3 ℝ), gaussWeight r
          (((j : Int) + dx - j) * ((j : Int) + dx - j) +
            ((i : Int) + dy - i) * ((i : Int) + dy - i))))))
    (by
      intro cw hcw
      obtain ⟨dy, -, hcw⟩ := List.mem_flatMap.1 hcw
      obtain ⟨dx, -, rfl⟩ := List.mem_map.1 hcw
      exact ⟨rfl, gaussWeight_pos r hr _⟩)
    (⟨0, 0, 0⟩, 0)
  have hW0 : 0 < W := hWpos (by
    intro h
    have hmem : ((⟨cr, cg, cb⟩ : vec3 ℝ), gaussWeight r
        (((j : Int) + d0 - j) * ((j : Int) + d0 - j) +
          ((i : Int) + d0 - i) * ((i : Int) + d0 - i))) ∈
        ((loopOffsets (gaussExtent r)).flatMap (fun dy =>
          (loopOffsets (gaussExtent r)).map (fun dx =>
            ((⟨cr, cg, cb⟩ : vec3 ℝ), gaussWeight r
              (((j : Int) + dx - j) * ((j : Int) + dx - j) +
                ((i : Int) + dy - i) * ((i : Int) + dy - i)))))) :=
      List.mem_flatMap.2 ⟨d0, hd0, List.mem_map.2 ⟨d0, hd0, rfl⟩⟩
    rw [h] at hmem
    exact absurd hmem (List.not_mem_nil _))
  unfold gaussAccumulate
  rw [hW]
  have hW' : W ≠ 0 := ne_of_gt hW0
  simp only [vec3.add, vec3.scale, vec3.divScalar, vec3.map, zero_add, Option.some.injEq,
    vec3.mk.injEq]
  refine ⟨?_, ?_, ?_⟩
  · rw [mul_div_assoc, div_self hW', mul_one]; exact roundAway_intCast cr
  · rw [mul_div_assoc, div_self hW', mul_one]; exact roundAway_intCast cg
  · rw [mul_div_assoc, div_self hW', mul_one]; exact roundAway_intCast cb

theorem optAll_replicate {β : Type} (n : Nat) (a : β) :
    optAll (List.replicate n (some a)) = some (List.replicate n a) := by
  rw [optAll_eq_some_iff, List.map_replicate]

/-- C8: for every radius `r > 0`, every `width` and `height` and every integer
colour `c`, `GaussBlur` of the `width × height` map whose pixels all hold `c`
returns that same map (the weight sum is positive and
`round(c * wsum / wsum) = c`). -/
theorem GaussBlur_uniform (r : ℝ) (hr : 0 < r) (width height : Nat) (cr cg cb : Int) :
    GaussBlur (List.replicate width (List.replicate height (⟨cr, cg, cb⟩ : vec3 ℝ)))
      width height r =
    some (List.replicate width (List.replicate height (⟨cr, cg, cb⟩ : vec3 ℝ))) := by
  unfold GaussBlur
  have hcol : ∀ j ∈ List.range width,
      optAll ((List.range height).map (fun i =>
        gaussPixel (List.replicate width (List.replicate height (⟨cr, cg, cb⟩ : vec3 ℝ)))
          width height r i j)) =
      some (List.replicate height (⟨cr, cg, cb⟩ : vec3 ℝ)) := by
    intro j hj
    have hw : 1 ≤ width := by have := List.mem_range.1 hj; omega
    have : (List.range height).map (fun i =>
        gaussPixel (List.replicate width (List.replicate height (⟨cr, cg, cb⟩ : vec3 ℝ)))
          width height r i j) =
        List.replicate height (some (⟨cr, cg, cb⟩ : vec3 ℝ)) := by
      rw [List.eq_replicate_iff]
      refine ⟨by simp, ?_⟩
      intro o ho
      obtain ⟨i, hi, rfl⟩ := List.mem_map.1 ho
      have hh : 1 ≤ height := by have := List.mem_range.1 hi; omega
      exact gaussPixel_uniform r hr width height hw hh cr cg cb i j
    rw [this, optAll_replicate]
  have : (List.range width).map (fun j =>
      optAll ((List.range height).map (fun i =>
        gaussPixel (List.replicate width (List.replicate height (⟨cr, cg, cb⟩ : vec3 ℝ)))
          width height r i j))) =
      List.replicate width (some (List.replicate height (⟨cr, cg, cb⟩ : vec3 ℝ))) := by
    rw [List.eq_replicate_iff]
    refine ⟨by simp, ?_⟩
    intro o ho
    obtain ⟨j, hj, rfl⟩ := List.mem_map.1 ho
    exact hcol j hj
  rw [this, optAll_replicate]

/-- C8, at a concrete input: radius `1`, a `2 × 3` map of colour `(10, 20, 30)`. -/
theorem GaussBlur_uniform_witness :
    GaussBlur (List.replicate 2 (List.replicate 3
      (⟨((10 : Int) : ℝ), ((20 : Int) : ℝ), ((30 : Int) : ℝ)⟩ : vec3 ℝ))) 2 3 1 =
    some (List.replicate 2 (List.replicate 3
      (⟨((10 : Int) : ℝ), ((20 : Int) : ℝ), ((30 : Int) : ℝ)⟩ : vec3 ℝ))) :=
  GaussBlur_uniform 1 (by norm_num) 2 3 10 20 30

/-! ## Run statistics -/

/-- C19: for unit vectors `d` and `n` with `-dot(n,d) ≥ 0`, `Refract(d, n, 1) = d`:
the reflection branch is not taken (`sin_t = sqrt(1 - c^2) ≤ 1`) and
`eta * cos_i - cos_t = 0`. -/
theorem Refract_equal_indices (d n : vec4) (hd : vec4.dot d d = 1) (hn : vec4.dot n n = 1)
    (hc : 0 ≤ -vec4.dot n d) :
    ¬ (1 * Real.sqrt (1 - (-vec4.dot n d) * (-vec4.dot n d)) > 1) ∧
    1 * (-vec4.dot n d) - Real.sqrt (1 - (1 * Real.sqrt (1 - (-vec4.dot n d) * (-vec4.dot n d))) *
      (1 * Real.sqrt (1 - (-vec4.dot n d) * (-vec4.dot n d)))) = 0 ∧
    Refract d n 1 = d := by
  have hcs : vec4.dot n d * vec4.dot n d ≤ 1 := vec4_dot_sq_le n d hn hd
  have hneg : (-vec4.dot n d) * (-vec4.dot n d) = vec4.dot n d * vec4.dot n d := by ring
  rw [hneg]
  set q := vec4.dot n d with hq
  have h1 : 0 ≤ 1 - q * q := by linarith
  have hS : Real.sqrt (1 - q * q) * Real.sqrt (1 - q * q) = 1 - q * q := Real.mul_self_sqrt h1
  have hle : Real.sqrt (1 - q * q) ≤ 1 := by
    have h0 := Real.sqrt_nonneg (1 - q * q)
    nlinarith [mul_self_nonneg q]
  have hnot : ¬ (1 * Real.sqrt (1 - q * q) > 1) := by
    rw [one_mul]; exact not_lt.2 hle
  have hcos : Real.sqrt (1 - 1 * Real.sqrt (1 - q * q) * (1 * Real.sqrt (1 - q * q))) = -q := by
    have : 1 - 1 * Real.sqrt (1 - q * q) * (1 * Real.sqrt (1 - q * q)) = (-q) * (-q) := by
      rw [one_mul, hS]; ring
    rw [this]
    exact Real.sqrt_mul_self hc
  refine ⟨hnot, ?_, ?_⟩
  · rw [hcos]; ring
  · rw [Refract_of_not_gt d n 1 hnot, ← hq, hcos]
    cases d
    simp [vec4.add, vec4.scale]

/-- C19, at a concrete input: head-on incidence. -/
theorem Refract_equal_indices_witness :
    ¬ (1 * Real.sqrt (1 - (-vec4.dot c5Normal c5Incidence) * (-vec4.dot c5Normal c5Incidence))
        > 1) ∧
    1 * (-vec4.dot c5Normal c5Incidence) -
      Real.sqrt (1 - (1 * Real.sqrt
        (1 - (-vec4.dot c5Normal c5Incidence) * (-vec4.dot c5Normal c5Incidence))) *
      (1 * Real.sqrt
        (1 - (-vec4.dot c5Normal c5Incidence) * (-vec4.dot c5Normal c5Incidence)))) = 0 ∧
    Refract c5Incidence c5Normal 1 = c5Incidence :=
  Refract_equal_indices c5Incidence c5Normal
    (by norm_num [vec4.dot, c5Incidence])
    (by norm_num [vec4.dot, c5Normal])
    (by norm_num [vec4.dot, c5Incidence, c5Normal])

/-! ## MedianFilter: uniform fields and channel independence -/

theorem medianPixel_uniform {α : Type} [LinearOrder α] (width height w : Nat) (c : vec3 α)
    (x y : Nat) (hw : 1 ≤ width) (hh : 1 ≤ height) :
    medianPixel (List.replicate width (List.replicate height c)) width height w x y =
      some c := by
  have hm : isGrid (List.replicate width (List.replicate height c)) width height := by
    refine ⟨List.length_replicate _ _, ?_⟩
    intro col hcol
    rw [List.eq_of_mem_replicate hcol, List.length_replicate]
  obtain ⟨px, win, hpx, hwin, hr, hg, hb⟩ := medianPixel_some
    (List.replicate width (List.replicate height c)) width height w x y hm hw hh
  have hmem : ∀ p ∈ win, p = c := by
    intro p hp
    unfold medianWindow at hwin
    have hl := (optAll_eq_some_iff _ _).1 hwin
    have hsome : some p ∈ win.map some := List.mem_map_of_mem _ hp
    rw [← hl] at hsome
    obtain ⟨wx, -, hsome⟩ := List.mem_flatMap.1 hsome
    obtain ⟨wy, -, hsome⟩ := List.mem_map.1 hsome
    rw [readPixel_replicate width height c _ _ (medianClamp_bounds _ _ hw).1
      (medianClamp_bounds _ _ hw).2 (medianClamp_bounds _ _ hh).1
      (medianClamp_bounds _ _ hh).2] at hsome
    exact (Option.some.inj hsome).symm
  have sel : ∀ (ch : vec3 α → α) (v : α), medianSelect (win.map ch) w = some v → v = ch c := by
    intro ch v hv
    unfold medianSelect at hv
    have hv' := List.getElem?_mem hv
    rw [List.mem_insertionSort] at hv'
    obtain ⟨p, hp, rfl⟩ := List.mem_map.1 hv'
    rw [hmem p hp]
  rw [hpx]
  congr 1
  cases px with
  | mk r g b =>
    simp only at hr hg hb
    rw [sel _ _ hr, sel _ _ hg, sel _ _ hb]

/-- C12: for every half-window `w`, every `width` and `height` and every colour
`c`, `MedianFilter` of the `width × height` map whose pixels all hold `c`
returns that same map. -/
theorem MedianFilter_uniform {α : Type} [LinearOrder α] (width height w : Nat) (c : vec3 α) :
    MedianFilter (List.replicate width (List.replicate height c)) width height w =
      some (List.replicate width (List.replicate height c)) := by
  unfold MedianFilter
  have hcol : ∀ x ∈ List.range width,
      optAll ((List.range height).map (fun y =>
        medianPixel (List.replicate width (List.replicate height c)) width height w x y)) =
      some (List.replicate height c) := by
    intro x hx
    have hw : 1 ≤ width := by have := List.mem_range.1 hx; omega
    have : (List.range height).map (fun y =>
        medianPixel (List.replicate width (List.replicate height c)) width height w x y) =
        List.replicate height (some c) := by
      rw [List.eq_replicate_iff]
      refine ⟨by simp, ?_⟩
      intro o ho
      obtain ⟨y, hy, rfl⟩ := List.mem_map.1 ho
      have hh : 1 ≤ height := by have := List.mem_range.1 hy; omega
      exact medianPixel_uniform width height w c x y hw hh
    rw [this, optAll_replicate]
  have : (List.range width).map (fun x =>
      optAll ((List.range height).map (fun y =>
        medianPixel (List.replicate width (List.replicate height c)) width height w x y))) =
      List.replicate width (some (List.replicate height c)) := by
    rw [List.eq_replicate_iff]
    refine ⟨by simp, ?_⟩
    intro o ho
    obtain ⟨x, hx, rfl⟩ := List.mem_map.1 ho
    exact hcol x hx
  rw [this, optAll_replicate]

theorem medianWindow_channel {α : Type} (m1 m2 : List (List (vec3 α)))
    (width height w x y : Nat) (ch : vec3 α → α) (hw : 1 ≤ width) (hh : 1 ≤ height)
    (hagree : ∀ i j : Nat, i < width → j < height →
      (readPixel m1 i j).map ch = (readPixel m2 i j).map ch)
    (win1 win2 : List (vec3 α)) (h1 : medianWindow m1 width height w x y = some win1)
    (h2 : medianWindow m2 width height w x y = some win2) :
    win1.map ch = win2.map ch := by
  unfold medianWindow at h1 h2
  have hl1 := congrArg (List.map (Option.map ch)) ((optAll_eq_some_iff _ _).1 h1)
  have hl2 := congrArg (List.map (Option.map ch)) ((optAll_eq_some_iff _ _).1 h2)
  have hclamp : ∀ a b : Int,
      (readPixel m1 (medianClamp a width) (medianClamp b height)).map ch =
        (readPixel m2 (medianClamp a width) (medianClamp b height)).map ch := by
    intro a b
    obtain ⟨i, hi⟩ := Int.eq_ofNat_of_zero_le (medianClamp_bounds a width hw).1
    obtain ⟨j, hj⟩ := Int.eq_ofNat_of_zero_le (medianClamp_bounds b height hh).1
    have hi' := (medianClamp_bounds a width hw).2
    have hj' := (medianClamp_bounds b height hh).2
    rw [hi, hj]
    exact hagree i j (by omega) (by omega)
  have hmid : List.map (Option.map ch) ((loopOffsets w).flatMap (fun window_x =>
      (loopOffsets w).map (fun window_y =>
        readPixel m1 (medianClamp (window_x + x) width) (medianClamp (window_y + y) height)))) =
      List.map (Option.map ch) ((loopOffsets w).flatMap (fun window_x =>
        (loopOffsets w).map (fun window_y =>
          readPixel m2 (medianClamp (window_x + x) width)
            (medianClamp (window_y + y) height)))) := by
    rw [List.map_flatMap, List.map_flatMap]
    congr 1
    funext wx
    rw [List.map_map, List.map_map]
    congr 1
    funext wy
    exact hclamp _ _
  rw [hmid, hl2] at hl1
  simp only [List.map_map] at hl1
  have hcomp : (Option.map ch ∘ some) = (some ∘ ch) := by
    funext p; rfl
  rw [hcomp, ← List.map_map, ← List.map_map] at hl1
  exact ((List.map_injective_iff.2 (Option.some_injective α)) hl1).symm

/-- C16: for every half-window `w` and every two `width × height` maps that agree
on one channel (red, green or blue) at every pixel, the outputs of
`MedianFilter` agree on that channel at every pixel, whatever the other two
channels hold. -/
theorem MedianFilter_channel_independent {α : Type} [LinearOrder α]
    (m1 m2 : List (List (vec3 α))) (width height w : Nat) (ch : vec3 α → α)
    (hch : ch = vec3.r ∨ ch = vec3.g ∨ ch = vec3.b)
    (hm1 : isGrid m1 width height) (hm2 : isGrid m2 width height)
    (hagree : ∀ x y : Nat, x < width → y < height →
      (readPixel m1 x y).map ch = (readPixel m2 x y).map ch) :
    ∃ out1 out2, MedianFilter m1 width height w = some out1 ∧
      MedianFilter m2 width height w = some out2 ∧
      ∀ x y : Nat, x < width → y < height →
        (readPixel out1 x y).map ch = (readPixel out2 x y).map ch := by
  obtain ⟨out1, ho1, -, hr1⟩ := MedianFilter_readPixel m1 width height w hm1
  obtain ⟨out2, ho2, -, hr2⟩ := MedianFilter_readPixel m2 width height w hm2
  refine ⟨out1, out2, ho1, ho2, ?_⟩
  intro x y hx hy
  rw [hr1 x y hx hy, hr2 x y hx hy]
  obtain ⟨p1, win1, hp1, hwin1, hr1', hg1, hb1⟩ :=
    medianPixel_some m1 width height w x y hm1 (by omega) (by omega)
  obtain ⟨p2, win2, hp2, hwin2, hr2', hg2, hb2⟩ :=
    medianPixel_some m2 width height w x y hm2 (by omega) (by omega)
  have hwin := medianWindow_channel m1 m2 width height w x y ch (by omega) (by omega) hagree
    win1 win2 hwin1 hwin2
  rw [hp1, hp2]
  simp only [Option.map_some', Option.some.injEq]
  rcases hch with rfl | rfl | rfl
  · rw [hwin, hr2'] at hr1'; exact (Option.some.inj hr1').symm
  · rw [hwin, hg2] at hg1; exact (Option.some.inj hg1).symm
  · rw [hwin, hb2] at hb1; exact (Option.some.inj hb1).symm

/-- C16, at a concrete input: the maps `c1Grid` and `c16Grid` agree on red and
differ on green and blue. -/
theorem MedianFilter_channel_independent_witness :
    ∃ out1 out2, MedianFilter c1Grid 2 2 1 = some out1 ∧
      MedianFilter c16Grid 2 2 1 = some out2 ∧
      ∀ x y : Nat, x < 2 → y < 2 →
        (readPixel out1 x y).map vec3.r = (readPixel out2 x y).map vec3.r :=
  MedianFilter_channel_independent c1Grid c16Grid 2 2 1 vec3.r (Or.inl rfl) (by decide)
    (by decide) (by
      intro x y hx hy
      have hx' : x = 0 ∨ x = 1 := by omega
      have hy' : y = 0 ∨ y = 1 := by omega
      rcases hx' with rfl | rfl <;> rcases hy' with rfl | rfl <;> decide)

/-! ## The variance of accumulated samples -/

theorem sum_mul_le_sum_sq {α : Type} [LinearOrderedField α] (l : List α) (a : α) :
    2 * l.sum * a ≤ (l.length : α) * (a * a) + (l.map (fun v => v * v)).sum := by
  induction l with
  | nil => simp
  | cons v t ih =>
    simp only [List.sum_cons, List.length_cons, List.map_cons, Nat.cast_add, Nat.cast_one]
    nlinarith [mul_self_nonneg (v - a)]

theorem variance_channel_nonneg {α : Type} [LinearOrderedField α] (n : Nat) (hn : 0 < n)
    (S Q : α) (h : ∀ a : α, 2 * S * a ≤ (n : α) * (a * a) + Q) :
    0 ≤ Q / (n : α) - S / (n : α) * (S / (n : α)) := by
  have hn' : (0 : α) < (n : α) := Nat.cast_pos.2 hn
  have h1 := h (S / (n : α))
  have h2 : (n : α) * (S / (n : α) * (S / (n : α))) = S * (S / (n : α)) := by
    field_simp
    ring
  have h3 : S * (S / (n : α)) ≤ Q := by
    rw [h2] at h1; linarith
  have h4 : S / (n : α) * (S / (n : α)) ≤ Q / (n : α) := by
    rw [le_div_iff₀ hn']
    calc S / (n : α) * (S / (n : α)) * (n : α) = S * (S / (n : α)) := by
          field_simp
          ring
      _ ≤ Q := h3
  linarith

/-- C11: for every non-empty sequence of samples `cs` accumulated into a pixel
(`sum` the sum of the samples, `sumSquares` the sum of their squares,
componentwise, `count` their number), each channel of the variance
`sumSquares / count - (sum / count)^2` computed by the gate and by the
statistics pass is `≥ 0`, and so is the dispersion. -/
theorem variance_nonneg {α : Type} [LinearOrderedField α] (cs : List (vec3 α))
    (hcs : cs ≠ []) (p : Pixel α) (hcount : p.samples = cs.length)
    (hsum : p.color = ⟨(cs.map vec3.r).sum, (cs.map vec3.g).sum, (cs.map vec3.b).sum⟩)
    (hsq : p.color2 = ⟨(cs.map (fun c => c.r * c.r)).sum, (cs.map (fun c => c.g * c.g)).sum,
      (cs.map (fun c => c.b * c.b)).sum⟩) :
    0 ≤ (variance p).r ∧ 0 ≤ (variance p).g ∧ 0 ≤ (variance p).b ∧ 0 ≤ dispersion p := by
  have hn : 0 < p.samples := by
    rw [hcount]; exact List.length_pos.2 hcs
  have chan : ∀ ch : vec3 α → α,
      0 ≤ (cs.map (fun c => ch c * ch c)).sum / (p.samples : α) -
        (cs.map ch).sum / (p.samples : α) * ((cs.map ch).sum / (p.samples : α)) := by
    intro ch
    apply variance_channel_nonneg p.samples hn
    intro a
    have := sum_mul_le_sum_sq (cs.map ch) a
    rw [List.length_map, List.map_map] at this
    rw [hcount]
    exact this
  have hr : 0 ≤ (variance p).r := by
    simp only [variance, vec3.sub, vec3.divScalar, sqr, vec3.mul, hsum, hsq]
    exact chan vec3.r
  have hg : 0 ≤ (variance p).g := by
    simp only [variance, vec3.sub, vec3.divScalar, sqr, vec3.mul, hsum, hsq]
    exact chan vec3.g
  have hb : 0 ≤ (variance p).b := by
    simp only [variance, vec3.sub, vec3.divScalar, sqr, vec3.mul, hsum, hsq]
    exact chan vec3.b
  refine ⟨hr, hg, hb, ?_⟩
  unfold dispersion
  linarith

/-- C11, at a concrete input: the three samples `c11Samples`. -/
theorem variance_nonneg_witness :
    0 ≤ (variance c11Pixel).r ∧ 0 ≤ (variance c11Pixel).g ∧ 0 ≤ (variance c11Pixel).b ∧
      0 ≤ dispersion c11Pixel :=
  variance_nonneg c11Samples (by simp [c11Samples]) c11Pixel (by simp [c11Pixel, c11Samples])
    (by norm_num [c11Pixel, c11Samples]) (by norm_num [c11Pixel, c11Samples])

/-! ## GaussBlur: the output stays within the input range -/

theorem gaussPixel_isSome (m : List (List (vec3 ℝ))) (width height : Nat) (r : ℝ)
    (i j : Nat) (hm : isGrid m width height) (hw : 1 ≤ width) (hh : 1 ≤ height) :
    ∃ c, gaussPixel m width height r i j = some c := by
  obtain ⟨s, hs⟩ := optAll_exists ((loopOffsets (gaussExtent r)).flatMap (fun dy =>
      (loopOffsets (gaussExtent r)).map (fun dx =>
        (readPixel m (gaussClamp ((j : Int) + dx) width)
          (gaussClamp ((i : Int) + dy) height)).map
          (fun c => (c, gaussWeight r ((((j : Int) + dx) - j) * (((j : Int) + dx) - j) +
            (((i : Int) + dy) - i) * (((i : Int) + dy) - i)))))))
    (by
      intro o ho
      obtain ⟨dy, -, ho⟩ := List.mem_flatMap.1 ho
      obtain ⟨dx, -, rfl⟩ := List.mem_map.1 ho
      obtain ⟨c, hc⟩ := readPixel_isGrid m width height hm _ _ (gaussClamp_bounds _ _ hw).1
        (gaussClamp_bounds _ _ hw).2 (gaussClamp_bounds ((i : Int) + dy) _ hh).1
        (gaussClamp_bounds _ _ hh).2
      exact ⟨_, by rw [hc]; rfl⟩)
  have hs' : gaussSamples m width height r i j = some s := hs
  exact ⟨_, by rw [gaussPixel, hs']; rfl⟩

/-- C18: in a `width × height` map with `width, height ≥ 1`, for every kernel
offset and every window offset the clamped column index lies in
`[0, width-1]` and the clamped row index in `[0, height-1]`, and the read at
those indices succeeds; so `GaussBlur` (for every `r`, hence every half-extent
`rs`) and `MedianFilter` (for every half-window `w`) return a map and never
the error branch.  Each per-channel window of `MedianFilter` has exactly
`(2w+1)^2` elements and the selected sorted position `w*w/2` is strictly
below `(2w+1)^2`. -/
theorem filters_index_safe (m : List (List (vec3 ℝ))) (width height : Nat)
    (hw : 1 ≤ width) (hh : 1 ≤ height) (hm : isGrid m width height) :
    (∀ ix iy : Int,
      0 ≤ gaussClamp ix width ∧ gaussClamp ix width ≤ (width : Int) - 1 ∧
      0 ≤ gaussClamp iy height ∧ gaussClamp iy height ≤ (height : Int) - 1 ∧
      ∃ c, readPixel m (gaussClamp ix width) (gaussClamp iy height) = some c) ∧
    (∀ i j : Int,
      0 ≤ medianClamp i width ∧ medianClamp i width ≤ (width : Int) - 1 ∧
      0 ≤ medianClamp j height ∧ medianClamp j height ≤ (height : Int) - 1 ∧
      ∃ c, readPixel m (medianClamp i width) (medianClamp j height) = some c) ∧
    (∀ r : ℝ, ∃ out, GaussBlur m width height r = some out ∧ isGrid out width height) ∧
    (∀ w : Nat, ∃ out, MedianFilter m width height w = some out ∧ isGrid out width height) ∧
    (∀ w x y : Nat, ∃ win, medianWindow m width height w x y = some win ∧
      (win.map vec3.r).length = (2 * w + 1) ^ 2 ∧
      (win.map vec3.g).length = (2 * w + 1) ^ 2 ∧
      (win.map vec3.b).length = (2 * w + 1) ^ 2 ∧
      w * w / 2 < (2 * w + 1) ^ 2 ∧
      (∃ v, medianSelect (win.map vec3.r) w = some v) ∧
      (∃ v, medianSelect (win.map vec3.g) w = some v) ∧
      (∃ v, medianSelect (win.map vec3.b) w = some v)) := by
  refine ⟨?_, ?_, ?_, ?_, ?_⟩
  · intro ix iy
    have h1 := gaussClamp_bounds ix width hw
    have h2 := gaussClamp_bounds iy height hh
    exact ⟨h1.1, by omega, h2.1, by omega,
      readPixel_isGrid m width height hm _ _ h1.1 h1.2 h2.1 h2.2⟩
  · intro i j
    have h1 := medianClamp_bounds i width hw
    have h2 := medianClamp_bounds j height hh
    exact ⟨h1.1, by omega, h2.1, by omega,
      readPixel_isGrid m width height hm _ _ h1.1 h1.2 h2.1 h2.2⟩
  · intro r
    obtain ⟨out, hout, hgrid, -⟩ := pixelwise_spec width height
      (fun x y => gaussPixel m width height r y x)
      (fun x _ y _ => gaussPixel_isSome m width height r y x hm hw hh)
    exact ⟨out, hout, hgrid⟩
  · intro w
    obtain ⟨out, hout, hgrid, -⟩ := MedianFilter_readPixel m width height w hm
    exact ⟨out, hout, hgrid⟩
  · intro w x y
    obtain ⟨win, hwin, hlen⟩ := medianWindow_some m width height w x y hm hw hh
    have hsq : (2 * w + 1) * (2 * w + 1) = (2 * w + 1) ^ 2 := by ring
    have hidx : w * w / 2 < (2 * w + 1) ^ 2 := by
      have : w * w / 2 ≤ w * w := Nat.div_le_self _ _
      nlinarith
    have sel : ∀ ch : vec3 ℝ → ℝ, ∃ v, medianSelect (win.map ch) w = some v := by
      intro ch
      obtain ⟨v, hv, -⟩ := medianSelect_some (win.map ch) w (by simpa using hlen)
      exact ⟨v, hv⟩
    refine ⟨win, hwin, ?_, ?_, ?_, hidx, sel _, sel _, sel _⟩ <;>
    · rw [List.length_map, hlen, hsq]

/-- C18, at a concrete input: the `2 × 1` map `c15Grid`, radius `1` and
half-window `1`. -/
theorem filters_index_safe_witness :
    (∃ out, GaussBlur c15Grid 2 1 1 = some out ∧ isGrid out 2 1) ∧
    (∃ out, MedianFilter c15Grid 2 1 1 = some out ∧ isGrid out 2 1) :=
  ⟨(filters_index_safe c15Grid 2 1 (by decide) (by decide) (by simp [isGrid, c15Grid])).2.2.1 1,
   (filters_index_safe c15Grid 2 1 (by decide) (by decide)
      (by simp [isGrid, c15Grid])).2.2.2.1 1⟩

/-! ## The control of the sampling loop: budget, time limit, checkpoints -/

theorem samplingPass_total {α Ray : Type} [LinearOrderedField α] (scene : Scene α Ray)
    (fuel : Nat) (hterm : terminates scene fuel) (width height : Nat) (error : α)
    (update : Nat) (s : LoopState α Ray) :
    ∃ s', samplingPass scene fuel width height error update s = some s' ∧
      s'.rays_count = s.rays_count + 1 ∧
      s'.saves = (if checkpointDue update s.rays_count then s.saves ++ [s.rays_count]
                  else s.saves) := by
  have hP : ∀ x y, ∃ q, passPixel scene fuel error x y s.rays_count (s.pixels x y) = some q := by
    intro x y
    unfold passPixel tracePixel
    obtain ⟨res, hres⟩ := hterm (generatePixel scene s.rays_count error x y (s.pixels x y)).ray
      (generatePixel scene s.rays_count error x y (s.pixels x y)).acc
    exact ⟨_, by rw [hres]; rfl⟩
  have hpass := samplingPass_pixel scene fuel width height error update s
    (fun x y => (passPixel scene fuel error x y s.rays_count (s.pixels x y)).getD (s.pixels x y))
    (by
      intro x y _ _
      obtain ⟨q, hq⟩ := hP x y
      simp only [hq, Option.getD_some])
  exact ⟨_, hpass, rfl, rfl⟩

theorem samplingLoop_control {α Ray : Type} [LinearOrderedField α] (scene : Scene α Ray)
    (fuel : Nat) (hterm : terminates scene fuel) (width height : Nat) (error : α)
    (update : Nat) (time_limit : ℚ) (clock : Nat → Int) (left : Nat) (s : LoopState α Ray) :
    ∃ s', samplingLoop scene fuel width height error update time_limit clock left s = some s' ∧
      s.rays_count ≤ s'.rays_count ∧ s'.rays_count ≤ s.rays_count + left ∧
      (∀ k, s.rays_count ≤ k → k < s'.rays_count → timeUp time_limit (clock k) = false) ∧
      (s'.rays_count = s.rays_count + left ∨
        timeUp time_limit (clock s'.rays_count) = true) ∧
      (∀ k, k ∈ s'.saves ↔
        k ∈ s.saves ∨ (s.rays_count ≤ k ∧ k < s'.rays_count ∧ checkpointDue update k = true)) := by
  induction left generalizing s with
  | zero =>
    refine ⟨s, rfl, le_refl _, le_refl _, ?_, Or.inl rfl, ?_⟩
    · intro k h1 h2; omega
    · intro k
      constructor
      · intro h; exact Or.inl h
      · rintro (h | ⟨h1, h2, -⟩)
        · exact h
        · omega
  | succ left ih =>
    rw [samplingLoop]
    by_cases ht : timeUp time_limit (clock s.rays_count) = true
    · rw [if_pos ht]
      refine ⟨s, rfl, le_refl _, by omega, ?_, Or.inr ht, ?_⟩
      · intro k h1 h2; omega
      · intro k
        constructor
        · intro h; exact Or.inl h
        · rintro (h | ⟨h1, h2, -⟩)
          · exact h
          · omega
    · rw [if_neg ht]
      have htf : timeUp time_limit (clock s.rays_count) = false := by
        simpa using ht
      obtain ⟨s1, hs1, hrc1, hsv1⟩ := samplingPass_total scene fuel hterm width height error
        update s
      obtain ⟨s', hs', h1, h2, h3, h4, h5⟩ := ih s1
      rw [hs1]
      refine ⟨s', hs', by omega, by omega, ?_, ?_, ?_⟩
      · intro k hk1 hk2
        by_cases hk : k = s.rays_count
        · rw [hk]; exact htf
        · exact h3 k (by omega) hk2
      · rcases h4 with h4 | h4
        · left; omega
        · right; exact h4
      · intro k
        rw [h5 k, hsv1]
        by_cases hdue : checkpointDue update s.rays_count = true
        · rw [if_pos hdue]
          simp only [List.mem_append, List.mem_singleton]
          constructor
          · rintro ((h | rfl) | ⟨ha, hb, hc⟩)
            · exact Or.inl h
            · exact Or.inr ⟨le_refl _, by omega, hdue⟩
            · exact Or.inr ⟨by omega, hb, hc⟩
          · rintro (h | ⟨ha, hb, hc⟩)
            · exact Or.inl (Or.inl h)
            · by_cases hk : k = s.rays_count
              · exact Or.inl (Or.inr hk)
              · exact Or.inr ⟨by omega, hb, hc⟩
        · rw [if_neg hdue]
          constructor
          · rintro (h | ⟨ha, hb, hc⟩)
            · exact Or.inl h
            · exact Or.inr ⟨by omega, hb, hc⟩
          · rintro (h | ⟨ha, hb, hc⟩)
            · exact Or.inl h
            · by_cases hk : k = s.rays_count
              · rw [hk] at hc; exact absurd hc hdue
              · exact Or.inr ⟨by omega, hb, hc⟩

theorem loopStep_chain (rays_per_pixel : Nat) (time_limit : ℚ) (clock : Nat → Int) (K : Nat)
    (hK : K ≤ rays_per_pixel) (h : ∀ k, k < K → timeUp time_limit (clock k) = false) :
    Relation.ReflTransGen (loopStep rays_per_pixel time_limit clock) 0 K := by
  induction K with
  | zero => exact Relation.ReflTransGen.refl
  | succ K ih =>
    exact Relation.ReflTransGen.tail (ih (by omega) (fun k hk => h k (by omega)))
      ⟨by omega, h K (by omega), rfl⟩

theorem traceLoop_stub_terminates {α : Type} [LinearOrderedField α] (c : vec3 α) (fuel : Nat) :
    terminates (stubScene c) (fuel + 1) := by
  intro ray p
  exact ⟨_, traceLoop_stub c fuel ray p⟩

/-- C13: for a Scene that ends every ray and for every sequence of clock
readings, the loop returns after a run of steps of the pass counter from `0`
to its final value, from which no further step is possible; it executes at
most `rays_per_pixel` passes; with time limit `0` it executes exactly
`rays_per_pixel` passes whatever the clock reads; and with a time limit
`L ≠ 0` every pass that is started has, at its pass boundary, an elapsed time
below `1000 * L` milliseconds, so none is started once the elapsed time
exceeds `L` seconds. -/
theorem pass_budget {α Ray : Type} [LinearOrderedField α] (scene : Scene α Ray) (fuel : Nat)
    (hterm : terminates scene fuel) (width height : Nat) (error : α) (update : Nat)
    (time_limit : ℚ) (clock : Nat → Int) (rays_per_pixel : Nat) (ray0 : Ray) :
    ∃ s, sampling scene fuel width height error update time_limit clock rays_per_pixel ray0 =
        some s ∧
      Relation.ReflTransGen (loopStep rays_per_pixel time_limit clock) 0 s.rays_count ∧
      (∀ k', ¬ loopStep rays_per_pixel time_limit clock s.rays_count k') ∧
      s.rays_count ≤ rays_per_pixel ∧
      (time_limit = 0 → s.rays_count = rays_per_pixel) ∧
      (time_limit ≠ 0 → ∀ k, k < s.rays_count → (clock k : ℚ) < 1000 * time_limit) := by
  obtain ⟨s, hs, -, h2, h3, h4, -⟩ := samplingLoop_control scene fuel hterm width height error
    update time_limit clock rays_per_pixel (initialState ray0)
  have h0 : (initialState ray0 : LoopState α Ray).rays_count = 0 := rfl
  rw [h0] at h2 h3 h4
  rw [Nat.zero_add] at h2 h4
  refine ⟨s, hs, ?_, ?_, h2, ?_, ?_⟩
  · exact loopStep_chain rays_per_pixel time_limit clock s.rays_count h2
      (fun k hk => h3 k (Nat.zero_le _) hk)
  · rintro k' ⟨hlt, hfalse, -⟩
    rcases h4 with h4 | h4
    · omega
    · rw [h4] at hfalse; cases hfalse
  · intro hL
    rcases h4 with h4 | h4
    · exact h4
    · simp [timeUp, hL] at h4
  · intro hL k hk
    have := h3 k (Nat.zero_le _) hk
    simp only [timeUp, ne_eq, hL, not_false_eq_true, true_and, ge_iff_le,
      decide_eq_false_iff_not, not_le] at this
    exact this

/-- C13, at a concrete input: budget 5, time limit 2 seconds, 700 milliseconds
a pass: the loop stops after 3 passes. -/
theorem pass_budget_witness :
    ∃ s, sampling (stubScene (⟨1, 1, 1⟩ : vec3 ℚ)) (0 + 1) 1 1 1 0 2
        (fun k => 700 * (k : Int)) 5 false = some s ∧
      s.rays_count = 3 ∧
      Relation.ReflTransGen (loopStep 5 2 (fun k => 700 * (k : Int))) 0 s.rays_count ∧
      s.rays_count ≤ 5 := by
  obtain ⟨s, hs, hchain, hfinal, hle, -, hL⟩ :=
    pass_budget (stubScene (⟨1, 1, 1⟩ : vec3 ℚ)) (0 + 1) (traceLoop_stub_terminates _ 0)
      1 1 1 0 2 (fun k => 700 * (k : Int)) 5 false
  refine ⟨s, hs, ?_, hchain, hle⟩
  have hL' := hL (by norm_num)
  have hup : s.rays_count ≤ 3 := by
    by_contra hgt
    have := hL' 3 (by omega)
    norm_num at this
  have hstep := hfinal (s.rays_count + 1)
  have hK : s.rays_count = 0 ∨ s.rays_count = 1 ∨ s.rays_count = 2 ∨ s.rays_count = 3 := by
    omega
  rcases hK with h | h | h | h
  · exfalso; apply hstep; rw [h]
    exact ⟨by norm_num, by simp [timeUp], rfl⟩
  · exfalso; apply hstep; rw [h]
    exact ⟨by norm_num, by simp [timeUp]; norm_num, rfl⟩
  · exfalso; apply hstep; rw [h]
    exact ⟨by norm_num, by simp [timeUp]; norm_num, rfl⟩
  · exact h

theorem checkedDiv_pos {α : Type} [LinearOrderedField α] (v : vec3 α) (count : Nat)
    (h : count ≠ 0) : checkedDiv v count = some (vec3.divScalar v (count : α)) := by
  unfold checkedDiv
  rw [if_neg h]

/-- C17: for a Scene that ends every ray, after the run the passes `k` (counted
from 0) after which a preview was written are exactly the executed passes with
a non-zero checkpoint interval `update` and `k % update = 0`; with interval
`0` none is written.  The remainder of the checkpoint test is never taken with
divisor `0`, and in the gate, the preview, the statistics pass and the tone
mapping every division by a pixel's sample count is evaluated only for a count
`> 0`: the variants with checked remainder and divisions never fail and give
the values of the unchecked ones. -/
theorem checkpoint_rule_and_guards {α Ray : Type} [LinearOrderedField α]
    (scene : Scene α Ray) (fuel : Nat) (hterm : terminates scene fuel) (width height : Nat)
    (error : α) (update : Nat) (time_limit : ℚ) (clock : Nat → Int) (rays_per_pixel : Nat)
    (ray0 : Ray) :
    (∃ s, sampling scene fuel width height error update time_limit clock rays_per_pixel ray0 =
        some s ∧
      (∀ k, k ∈ s.saves ↔ k < s.rays_count ∧ update ≠ 0 ∧ k % update = 0) ∧
      (update = 0 → s.saves = [])) ∧
    (∀ k, checkpointChecked update k = some (checkpointDue update k)) ∧
    (∀ (k : Nat) (p : Pixel α), gateChecked k error p = some (gateSkips k error p)) ∧
    (∀ (gamma : ℝ) (p : Pixel ℝ), previewChecked gamma p = some (previewPixel gamma p)) ∧
    (∀ (d : Dispersion α) (p : Pixel α), statStepChecked d p = some (statStep d p)) ∧
    (∀ (gamma : ℝ) (p : Pixel ℝ), finalColorChecked gamma p = some (finalColor gamma p)) := by
  refine ⟨?_, ?_, ?_, ?_, ?_, ?_⟩
  · obtain ⟨s, hs, -, -, -, -, h5⟩ := samplingLoop_control scene fuel hterm width height error
      update time_limit clock rays_per_pixel (initialState ray0)
    have hmem : ∀ k, k ∈ s.saves ↔ k < s.rays_count ∧ update ≠ 0 ∧ k % update = 0 := by
      intro k
      rw [h5 k]
      have h0 : (initialState ray0 : LoopState α Ray).rays_count = 0 := rfl
      have hs0 : (initialState ray0 : LoopState α Ray).saves = [] := rfl
      rw [h0, hs0]
      simp only [List.not_mem_nil, false_or, Nat.zero_le, true_and, checkpointDue,
        decide_eq_true_eq]
    refine ⟨s, hs, hmem, ?_⟩
    intro hu
    apply List.eq_nil_iff_forall_not_mem.2
    intro k hk
    exact ((hmem k).1 hk).2.1 hu
  · intro k
    unfold checkpointChecked checkpointDue checkedMod
    by_cases hu : update = 0
    · simp [hu]
    · simp [hu]
  · intro k p
    unfold gateChecked gateSkips
    by_cases hc : k > 10 ∧ (p.samples : α) > 0
    · have hn : p.samples ≠ 0 := by
        intro h0
        have := hc.2
        rw [h0] at this
        simp at this
      rw [if_pos hc, if_pos hc, checkedDiv_pos _ _ hn, checkedDiv_pos _ _ hn]
      simp only [Option.some_bind, Option.map_some', variance, Option.some.injEq]
      by_cases hd : k % 4 ≠ 0 ∧
          (vec3.sub (vec3.divScalar p.color2 (p.samples : α))
            (sqr (vec3.divScalar p.color (p.samples : α)))).r < error ∧
          (vec3.sub (vec3.divScalar p.color2 (p.samples : α))
            (sqr (vec3.divScalar p.color (p.samples : α)))).g < error ∧
          (vec3.sub (vec3.divScalar p.color2 (p.samples : α))
            (sqr (vec3.divScalar p.color (p.samples : α)))).b < error
      · rw [if_pos hd]; exact decide_eq_true hd
      · rw [if_neg hd]; exact decide_eq_false hd
    · rw [if_neg hc, if_neg hc]
  · intro gamma p
    unfold previewChecked previewPixel toneMap
    by_cases hn : p.samples ≠ 0
    · rw [if_pos hn, if_pos hn, checkedDiv_pos _ _ hn]; rfl
    · rw [if_neg hn, if_neg hn]
  · intro d p
    unfold statStepChecked statStep
    by_cases hn : p.samples = 0
    · rw [if_pos hn, if_pos hn]
    · rw [if_neg hn, if_neg hn, checkedDiv_pos _ _ hn, checkedDiv_pos _ _ hn]
      rfl
  · intro gamma p
    unfold finalColorChecked finalColor toneMap
    by_cases hn : p.samples = 0
    · rw [if_pos hn, if_pos hn]
    · rw [if_neg hn, if_neg hn, checkedDiv_pos _ _ hn]; rfl

/-- C17, at a concrete input: budget 5, checkpoint interval 2, no time limit:
previews are written after the passes 0, 2 and 4. -/
theorem checkpoint_rule_and_guards_witness :
    ∃ s, sampling (stubScene (⟨1, 1, 1⟩ : vec3 ℚ)) (0 + 1) 1 1 1 2 0 (fun _ => 0) 5 false =
        some s ∧
      (∀ k, k ∈ s.saves ↔ k < s.rays_count ∧ 2 ≠ 0 ∧ k % 2 = 0) ∧
      ((2 : Nat) = 0 → s.saves = []) :=
  (checkpoint_rule_and_guards (stubScene (⟨1, 1, 1⟩ : vec3 ℚ)) (0 + 1)
    (traceLoop_stub_terminates _ 0) 1 1 1 2 0 (fun _ => 0) 5 false).1

/-! ## The scenario with sample budget 1 -/

theorem mem_scanOrder {β : Type} (width height : Nat) (acc : Nat → Nat → β) (p : β)
    (hp : p ∈ scanOrder width height acc) : ∃ x y, x < width ∧ y < height ∧ p = acc x y := by
  unfold scanOrder at hp
  obtain ⟨y, hy, hp⟩ := List.mem_flatMap.1 hp
  obtain ⟨x, hx, rfl⟩ := List.mem_map.1 hp
  exact ⟨x, y, List.mem_range.1 hx, List.mem_range.1 hy, rfl⟩

theorem scanOrder_length {β : Type} (width height : Nat) (acc : Nat → Nat → β) :
    (scanOrder width height acc).length = height * width := by
  unfold scanOrder
  rw [length_flatMap_const _ _ width (fun a _ => by simp), List.length_range]

theorem statFold_zero {α : Type} [LinearOrderedField α] (ps : List (Pixel α))
    (hps : ∀ p ∈ ps, p.samples ≠ 0 ∧ dispersion p = 0) (s : Dispersion α)
    (hmax : s.max_dispersion = 0) (hmin : s.min_dispersion = none ∨ s.min_dispersion = some 0)
    (havg : s.average_dispersion = 0) :
    (statFold s ps).max_dispersion = 0 ∧
    ((statFold s ps).min_dispersion = none ∨ (statFold s ps).min_dispersion = some 0) ∧
    (ps ≠ [] → (statFold s ps).min_dispersion = some 0) ∧
    (statFold s ps).average_dispersion = 0 := by
  induction ps generalizing s with
  | nil => exact ⟨hmax, hmin, fun h => absurd rfl h, havg⟩
  | cons p t ih =>
    obtain ⟨hn, hd⟩ := hps p (List.mem_cons_self _ _)
    have hstep_max : (statStep s p).max_dispersion = 0 := by
      simp [statStep, hn, hd, hmax]
    have hstep_min : (statStep s p).min_dispersion = some 0 := by
      rcases hmin with h | h <;> simp [statStep, hn, hd, h]
    have hstep_avg : (statStep s p).average_dispersion = 0 := by
      simp [statStep, hn, hd, havg]
    obtain ⟨h1, h2, -, h4⟩ := ih (fun q hq => hps q (List.mem_cons_of_mem _ hq)) (statStep s p)
      hstep_max (Or.inr hstep_min) hstep_avg
    refine ⟨h1, h2, fun _ => ?_, h4⟩
    clear ih
    have keep : ∀ (l : List (Pixel α)) (d : Dispersion α),
        (∀ q ∈ l, q.samples ≠ 0 ∧ dispersion q = 0) → d.min_dispersion = some 0 →
        (statFold d l).min_dispersion = some 0 := by
      intro l
      induction l with
      | nil => intro d _ hd'; exact hd'
      | cons q l ihl =>
        intro d hl hd'
        obtain ⟨hqn, hqd⟩ := hl q (List.mem_cons_self _ _)
        exact ihl (statStep d q) (fun r hr => hl r (List.mem_cons_of_mem _ hr))
          (by simp [statStep, hqn, hqd, hd'])
    exact keep t (statStep s p) (fun q hq => hps q (List.mem_cons_of_mem _ hq)) hstep_min

theorem passPixel_stub_first {α : Type} [LinearOrderedField α] (c : vec3 α) (error : α)
    (fuel x y : Nat) (s : PixelState α Bool) (hacc : s.acc = constantAcc c 0) :
    passPixel (stubScene c) (fuel + 1) error x y 0 s =
      some { acc := constantAcc c 1, ray := false, created := s.created ++ [0] } := by
  have hg : gateSkips 0 error s.acc = false := by
    rw [Bool.eq_false_iff]
    intro ht
    have := ((gateSkips_iff 0 error s.acc).1 ht).1
    omega
  have hgen : generatePixel (stubScene c) 0 error x y s =
      { s with ray := true, created := s.created ++ [0] } := by
    unfold generatePixel
    rw [hg]
    rfl
  unfold passPixel tracePixel
  rw [hgen, traceLoop_stub]
  simp only [if_true, Option.map_some', hacc, stub_accumulate]

/-- C14: with sample budget 1, time limit 0, checkpointing disabled, both
filters disabled, any image of at least one pixel and the stub Scene of carried
colour `(1,1,1)`, the run makes one pass and writes no preview; every pixel
ends with `count = 1` and dispersion `0`, the maximum, minimum and mean
dispersion are `0`, and the final colour of every pixel is `255` on the three
channels, for every `gamma`. -/
theorem single_pass_scenario (width height : Nat) (hw : 1 ≤ width) (hh : 1 ≤ height)
    (fuel : Nat) (error : ℝ) (clock : Nat → Int) (ray0 : Bool) (gamma : ℝ) :
    ∃ s, sampling (stubScene (⟨1, 1, 1⟩ : vec3 ℝ)) (fuel + 1) width height error 0 0 clock 1
        ray0 = some s ∧
      s.rays_count = 1 ∧ s.saves = [] ∧
      (∀ x y, x < width → y < height →
        (s.pixels x y).acc.samples = 1 ∧ dispersion (s.pixels x y).acc = 0 ∧
        finalPixel gamma (s.pixels x y).acc = some ⟨255, 255, 255⟩) ∧
      (statistics width height (fun x y => (s.pixels x y).acc)).max_dispersion = 0 ∧
      (statistics width height (fun x y => (s.pixels x y).acc)).min_dispersion = some 0 ∧
      (statistics width height (fun x y => (s.pixels x y).acc)).average_dispersion = 0 := by
  have hpass := samplingPass_pixel (stubScene (⟨1, 1, 1⟩ : vec3 ℝ)) (fuel + 1) width height
    error 0 (initialState ray0)
    (fun _ _ => { acc := constantAcc (⟨1, 1, 1⟩ : vec3 ℝ) 1, ray := false, created := [0] })
    (by
      intro x y _ _
      have := passPixel_stub_first (⟨1, 1, 1⟩ : vec3 ℝ) error fuel x y
        ((initialState ray0 : LoopState ℝ Bool).pixels x y)
        (by simp [initialState, constantAcc])
      exact this)
  have hone : dispersion (constantAcc (⟨1, 1, 1⟩ : vec3 ℝ) 1) = 0 := by
    simp [dispersion, variance, constantAcc, vec3.sub, vec3.divScalar, sqr, vec3.mul]
  have hfinal : finalPixel gamma (constantAcc (⟨1, 1, 1⟩ : vec3 ℝ) 1) =
      some ⟨255, 255, 255⟩ := by
    simp [finalPixel, finalColor, toneMap, constantAcc, vec3.scale, vec3.map, vec3.divScalar]
  refine ⟨{ rays_count := 1
            pixels := fun i j => if i < width ∧ j < height
              then { acc := constantAcc (⟨1, 1, 1⟩ : vec3 ℝ) 1, ray := false, created := [0] }
              else (initialState ray0 : LoopState ℝ Bool).pixels i j
            saves := [] }, ?_, rfl, rfl, ?_, ?_⟩
  · unfold sampling
    rw [samplingLoop]
    have ht : timeUp 0 (clock (initialState ray0 : LoopState ℝ Bool).rays_count) = false := by
      simp [timeUp]
    rw [ht, hpass]
    rfl
  · intro x y hx hy
    simp only [hx, hy, and_self, if_true]
    exact ⟨rfl, hone, hfinal⟩
  · have hps : ∀ p ∈ scanOrder width height (fun x y =>
        (if x < width ∧ y < height
          then ({ acc := constantAcc (⟨1, 1, 1⟩ : vec3 ℝ) 1, ray := false, created := [0] } :
            PixelState ℝ Bool)
          else (initialState ray0 : LoopState ℝ Bool).pixels x y).acc),
        p.samples ≠ 0 ∧ dispersion p = 0 := by
      intro p hp
      obtain ⟨x, y, hx, hy, rfl⟩ := mem_scanOrder _ _ _ p hp
      simp only [hx, hy, and_self, if_true]
      exact ⟨by simp [constantAcc], hone⟩
    have hne : scanOrder width height (fun x y =>
        (if x < width ∧ y < height
          then ({ acc := constantAcc (⟨1, 1, 1⟩ : vec3 ℝ) 1, ray := false, created := [0] } :
            PixelState ℝ Bool)
          else (initialState ray0 : LoopState ℝ Bool).pixels x y).acc) ≠ [] := by
      intro h
      have := congrArg List.length h
      rw [scanOrder_length, List.length_nil] at this
      have := Nat.mul_pos hh hw
      omega
    obtain ⟨h1, -, h3, h4⟩ := statFold_zero _ hps (⟨0, none, 0⟩ : Dispersion ℝ) rfl
      (Or.inl rfl) rfl
    refine ⟨h1, h3 hne, ?_⟩
    show (statFold _ _).average_dispersion / _ = 0
    rw [h4, zero_div]

/-- C14, at a concrete input: a `4 × 4` image, `gamma = 1 / 2`. -/
theorem single_pass_scenario_witness :
    ∃ s, sampling (stubScene (⟨1, 1, 1⟩ : vec3 ℝ)) (0 + 1) 4 4 (1 / 100) 0 0 (fun _ => 0) 1
        false = some s ∧
      s.rays_count = 1 ∧ s.saves = [] ∧
      (∀ x y, x < 4 → y < 4 →
        (s.pixels x y).acc.samples = 1 ∧ dispersion (s.pixels x y).acc = 0 ∧
        finalPixel (1 / 2) (s.pixels x y).acc = some ⟨255, 255, 255⟩) ∧
      (statistics 4 4 (fun x y => (s.pixels x y).acc)).max_dispersion = 0 ∧
      (statistics 4 4 (fun x y => (s.pixels x y).acc)).min_dispersion = some 0 ∧
      (statistics 4 4 (fun x y => (s.pixels x y).acc)).average_dispersion = 0 :=
  single_pass_scenario 4 4 (by decide) (by decide) 0 (1 / 100) (fun _ => 0) false (1 / 2)
